import Mathlib

/-
Verification of the CLEAN deconvolution module (src/_deconv/deconv.cpp).

The module implements the CLEAN algorithm for 1-D/2-D real/complex arrays:
a template `Clean<T>` with four static loops (clean_1d_r, clean_2d_r,
clean_1d_c, clean_2d_c) plus a boundary wrapper `clean` that validates
shapes/dtypes and dispatches.

Embedding conventions:
- Machine floating point is idealised as exact rational arithmetic (ℚ); the
  one transcendental operation, sqrt, is passed in as a parameter
  `sqrtFn : ℚ → ℚ` so every control-flow theorem holds for any sqrt.
  Concrete traces instantiate `sqrtFn` with `ratSqrt` (exact on perfect
  rational squares, the only values the chosen concrete inputs produce) or
  with the identity when the claim does not depend on the sqrt values.
- 1-D arrays are `List ℚ` (or `List (ℚ × ℚ)` for complex, pairing the real
  and imaginary components exactly as the C code addresses them).
- 2-D arrays are row-major flat lists; the C index pair (n1, n2) of a
  dim1 × dim2 array is the flat index n1 * dim2 + n2, and the nested
  n1/n2 loops are folds over `pairRange dim1 dim2`, which enumerates
  (n1, n2) in exactly the nested-loop (row-major) order.
- In-place element updates `a[i] op= x` become `List.set i (a.getD i 0 op x)`.
- The `verbose` printf is pure output with no effect on state or control
  flow and is omitted.
-/

namespace Deconv

/-! ### Generic machinery for in-place array updates

`addAt k c l` is the embedding of `l[k] += c`.  The subtraction and rollback
loops of the CLEAN code are folds of such updates over an index list; the
lemmas below give their pointwise effect and the exactness of rollback. -/

def addAt (k : ℕ) (c : ℚ) (l : List ℚ) : List ℚ :=
  l.set k (l.getD k 0 + c)

theorem length_addAt (k : ℕ) (c : ℚ) (l : List ℚ) :
    (addAt k c l).length = l.length := by
  simp [addAt]

theorem getD_set_self (l : List ℚ) (k : ℕ) (v : ℚ) (h : k < l.length) :
    (l.set k v).getD k 0 = v := by
  simp [List.getD_eq_getElem?_getD, List.getElem?_set_self, h]

theorem getD_set_ne (l : List ℚ) (k j : ℕ) (v : ℚ) (h : k ≠ j) :
    (l.set k v).getD j 0 = l.getD j 0 := by
  simp [List.getD_eq_getElem?_getD, List.getElem?_set_ne h]

theorem set_getD_self (l : List ℚ) (n : ℕ) (h : n < l.length) :
    l.set n (l.getD n 0) = l := by
  induction l generalizing n with
  | nil => simp at h
  | cons a l ih =>
    cases n with
    | zero => rfl
    | succ n =>
      simp only [List.length_cons, Nat.succ_lt_succ_iff] at h
      have hd : (a :: l).getD (n + 1) 0 = l.getD n 0 := rfl
      have hs : (a :: l).set (n + 1) (l.getD n 0) = a :: l.set n (l.getD n 0) :=
        rfl
      rw [hd, hs, ih n h]

theorem getD_addAt_self (k : ℕ) (c : ℚ) (l : List ℚ) (h : k < l.length) :
    (addAt k c l).getD k 0 = l.getD k 0 + c :=
  getD_set_self l k _ h

theorem getD_addAt_ne (k j : ℕ) (c : ℚ) (l : List ℚ) (h : k ≠ j) :
    (addAt k c l).getD j 0 = l.getD j 0 :=
  getD_set_ne l k j _ h

theorem addAt_out_of_range (k : ℕ) (c : ℚ) (l : List ℚ) (h : l.length ≤ k) :
    addAt k c l = l :=
  List.set_eq_of_length_le h

theorem addAt_addAt_same (k : ℕ) (b c : ℚ) (l : List ℚ) :
    addAt k c (addAt k b l) = addAt k (b + c) l := by
  by_cases h : k < l.length
  · unfold addAt
    rw [getD_set_self l k _ h, List.set_set]
    ring_nf
  · rw [addAt_out_of_range k b l (by omega),
      addAt_out_of_range k c l (by omega),
      addAt_out_of_range k (b + c) l (by omega)]

theorem addAt_comm (k j : ℕ) (b c : ℚ) (l : List ℚ) :
    addAt k c (addAt j b l) = addAt j b (addAt k c l) := by
  by_cases hkj : k = j
  · subst hkj
    rw [addAt_addAt_same, addAt_addAt_same]
    ring_nf
  · unfold addAt
    rw [getD_set_ne l j k _ (Ne.symm hkj), getD_set_ne l k j _ hkj,
      List.set_comm _ _ _ (Ne.symm hkj)]

theorem addAt_cancel (k : ℕ) (c : ℚ) (l : List ℚ) :
    addAt k c (addAt k (-c) l) = l := by
  rw [addAt_addAt_same]
  by_cases h : k < l.length
  · simp only [neg_add_cancel]
    unfold addAt
    rw [add_zero]
    exact set_getD_self l k h
  · exact addAt_out_of_range _ _ _ (by omega)

/-- A fold of `addAt` updates over an index list, with destination index
map `w` and increment map `f`: the generic shape of the residual update
loops in the CLEAN code. -/
def addFold {α : Type} (w : α → ℕ) (f : α → ℚ) (l : List α) (r : List ℚ) :
    List ℚ :=
  l.foldl (fun r x => addAt (w x) (f x) r) r

theorem addFold_nil {α : Type} (w : α → ℕ) (f : α → ℚ) (r : List ℚ) :
    addFold w f [] r = r := rfl

theorem addFold_cons {α : Type} (w : α → ℕ) (f : α → ℚ) (x : α) (l : List α)
    (r : List ℚ) : addFold w f (x :: l) r = addFold w f l (addAt (w x) (f x) r) :=
  rfl

theorem length_addFold {α : Type} (w : α → ℕ) (f : α → ℚ) (l : List α)
    (r : List ℚ) : (addFold w f l r).length = r.length := by
  induction l generalizing r with
  | nil => rfl
  | cons x l ih => rw [addFold_cons, ih, length_addAt]

theorem addAt_addFold {α : Type} (w : α → ℕ) (f : α → ℚ) (l : List α)
    (k : ℕ) (c : ℚ) (r : List ℚ) :
    addAt k c (addFold w f l r) = addFold w f l (addAt k c r) := by
  induction l generalizing r with
  | nil => rfl
  | cons x l ih => rw [addFold_cons, addFold_cons, ih, addAt_comm]

/-- Undoing every `addAt` of a fold (same index list, negated increments)
restores the array exactly, element for element. -/
theorem addFold_neg_cancel {α : Type} (w : α → ℕ) (f : α → ℚ) (l : List α)
    (r : List ℚ) :
    addFold w f l (addFold w (fun x => -(f x)) l r) = r := by
  induction l generalizing r with
  | nil => rfl
  | cons x l ih =>
    simp only [addFold_cons]
    rw [addAt_addFold w (fun y => -f y) l (w x) (f x) (addAt (w x) (-f x) r),
      addAt_cancel (w x) (f x) r, ih]

/-- Pointwise effect of an `addAt` fold: position `j` receives the sum of the
increments of all list entries mapped to `j`. -/
theorem addFold_getD {α : Type} (w : α → ℕ) (f : α → ℚ) (l : List α)
    (r : List ℚ) (j : ℕ) (hj : j < r.length) :
    (addFold w f l r).getD j 0 =
      r.getD j 0 + ((l.filter (fun x => decide (w x = j))).map f).sum := by
  induction l generalizing r with
  | nil => simp [addFold_nil]
  | cons x l ih =>
    rw [addFold_cons]
    have hlen : j < (addAt (w x) (f x) r).length := by rw [length_addAt]; exact hj
    rw [ih _ hlen]
    by_cases hw : w x = j
    · subst hw
      rw [getD_addAt_self _ _ _ hj]
      have hfil : (x :: l).filter (fun y => decide (w y = w x)) =
          x :: l.filter (fun y => decide (w y = w x)) := by
        simp [List.filter_cons]
      rw [hfil, List.map_cons, List.sum_cons]
      ring
    · rw [getD_addAt_ne _ _ _ _ hw]
      have hfil : (x :: l).filter (fun y => decide (w y = j)) =
          l.filter (fun y => decide (w y = j)) := by
        simp [List.filter_cons, hw]
      rw [hfil]

theorem filter_eq_singleton {α : Type} (l : List α) (hl : l.Nodup) (x : α)
    (hx : x ∈ l) (p : α → Bool) (hp : ∀ y ∈ l, p y = true ↔ y = x) :
    l.filter p = [x] := by
  induction l with
  | nil => simp at hx
  | cons b l ih =>
    rw [List.nodup_cons] at hl
    by_cases hbx : b = x
    · subst hbx
      have hfb : p b = true := (hp b (List.mem_cons_self b l)).mpr rfl
      have hnil : l.filter p = [] := by
        rw [List.filter_eq_nil_iff]
        intro c hc hpc
        have hcb : c = b := (hp c (List.mem_cons_of_mem b hc)).mp hpc
        exact hl.1 (hcb ▸ hc)
      simp [List.filter_cons, hfb, hnil]
    · have hxl : x ∈ l := by
        rcases List.mem_cons.mp hx with h | h
        · exact absurd h.symm hbx
        · exact h
      have hfb : p b = false := by
        cases h : p b with
        | false => rfl
        | true => exact absurd ((hp b (List.mem_cons_self b l)).mp h) hbx
      rw [List.filter_cons, hfb]
      simp only [Bool.false_eq_true, if_false]
      exact ih hl.2 hxl (fun y hy => hp y (List.mem_cons_of_mem b hy))

/-- Pointwise effect when exactly one entry of a nodup index list maps to the
target position: that entry's increment is added, nothing else changes. -/
theorem addFold_getD_unique {α : Type} (w : α → ℕ) (f : α → ℚ) (l : List α)
    (hl : l.Nodup) (x : α) (hx : x ∈ l)
    (huniq : ∀ y ∈ l, w y = w x → y = x)
    (r : List ℚ) (hj : w x < r.length) :
    (addFold w f l r).getD (w x) 0 = r.getD (w x) 0 + f x := by
  rw [addFold_getD w f l r (w x) hj,
    filter_eq_singleton l hl x hx _
      (fun y hy => by
        simp only [decide_eq_true_eq]
        exact ⟨fun h => huniq y hy h, fun h => h ▸ rfl⟩)]
  simp

/-! ### Wrapped-index injectivity -/

theorem wrap_inj (a b k d : ℕ) (ha : a < d) (hb : b < d)
    (h : (a + k) % d = (b + k) % d) : a = b := by
  have hmod : a % d = b % d := Nat.ModEq.add_right_cancel' k h
  rwa [Nat.mod_eq_of_lt ha, Nat.mod_eq_of_lt hb] at hmod

theorem flat_index_inj (c1 c2 e1 e2 d : ℕ) (hc : c2 < d) (he : e2 < d)
    (h : c1 * d + c2 = e1 * d + e2) : c1 = e1 ∧ c2 = e2 := by
  have hd : 0 < d := by omega
  have hmc : (c1 * d + c2) % d = c2 := by
    rw [Nat.mul_comm c1 d, Nat.mul_add_mod]
    exact Nat.mod_eq_of_lt hc
  have hme : (e1 * d + e2) % d = e2 := by
    rw [Nat.mul_comm e1 d, Nat.mul_add_mod]
    exact Nat.mod_eq_of_lt he
  have h22 : c2 = e2 := by rw [← hmc, ← hme, h]
  have h11 : c1 = e1 := by
    have hmul : c1 * d = e1 * d := by omega
    exact Nat.eq_of_mul_eq_mul_right hd hmul
  exact ⟨h11, h22⟩

/-! ### Row-major enumeration of a 2-D index domain -/

/-- The sequence of (n1, n2) index pairs visited by the nested
`for n1 ... for n2 ...` loops of the 2-D CLEAN routines, in order. -/
def pairRange (d1 d2 : ℕ) : List (ℕ × ℕ) :=
  (List.range d1).product (List.range d2)

theorem pairRange_nodup (d1 d2 : ℕ) : (pairRange d1 d2).Nodup :=
  List.Nodup.product (List.nodup_range d1) (List.nodup_range d2)

theorem mem_pairRange (d1 d2 n1 n2 : ℕ) :
    (n1, n2) ∈ pairRange d1 d2 ↔ n1 < d1 ∧ n2 < d2 := by
  rw [pairRange, List.pair_mem_product, List.mem_range, List.mem_range]

/-! ### The kernel peak scan

All four CLEAN routines open with a single scan of the kernel that keeps the
element of largest squared magnitude seen so far (value in the accumulator's
first component, its squared magnitude in the second).  `peakFold` is that
scan, generic in the element type `β` (ℚ for the real routines, ℚ × ℚ for
the complex ones) with magnitude function `m`. -/

def peakFold {α β : Type} (g : α → β) (m : β → ℚ) (l : List α) (a : β × ℚ) :
    β × ℚ :=
  l.foldl (fun acc x =>
    let v := g x
    let mv := m v
    if acc.2 < mv then (v, mv) else acc) a

theorem peakFold_nil {α β : Type} (g : α → β) (m : β → ℚ) (a : β × ℚ) :
    peakFold g m [] a = a := rfl

theorem peakFold_cons {α β : Type} (g : α → β) (m : β → ℚ) (x : α)
    (l : List α) (a : β × ℚ) :
    peakFold g m (x :: l) a =
      peakFold g m l (if a.2 < m (g x) then (g x, m (g x)) else a) := rfl

/-- Properties of the kernel peak scan: the recorded squared magnitude always
matches the recorded value, it bounds the squared magnitude of every scanned
element, and (unless no element ever beat the initial accumulator) the
recorded value is one of the scanned elements. -/
theorem peakFold_spec {α β : Type} (g : α → β) (m : β → ℚ) (l : List α)
    (a : β × ℚ) (ha : a.2 = m a.1) :
    (peakFold g m l a).2 = m (peakFold g m l a).1 ∧
    a.2 ≤ (peakFold g m l a).2 ∧
    (∀ x ∈ l, m (g x) ≤ (peakFold g m l a).2) ∧
    (peakFold g m l a = a ∨ ∃ x ∈ l, (peakFold g m l a).1 = g x) := by
  induction l generalizing a with
  | nil =>
    refine ⟨ha, le_refl _, ?_, Or.inl rfl⟩
    intro x hx
    simp at hx
  | cons x l ih =>
    rw [peakFold_cons]
    by_cases hx : a.2 < m (g x)
    · rw [if_pos hx]
      obtain ⟨h1, h2, h3, h4⟩ := ih (g x, m (g x)) rfl
      refine ⟨h1, le_trans (le_of_lt hx) h2, ?_, ?_⟩
      · intro y hy
        rcases List.mem_cons.mp hy with rfl | hyl
        · exact h2
        · exact h3 y hyl
      · rcases h4 with h4 | ⟨y, hy, hys⟩
        · exact Or.inr ⟨x, List.mem_cons_self x l, by rw [h4]⟩
        · exact Or.inr ⟨y, List.mem_cons_of_mem x hy, hys⟩
    · rw [if_neg hx]
      obtain ⟨h1, h2, h3, h4⟩ := ih a ha
      refine ⟨h1, h2, ?_, ?_⟩
      · intro y hy
        rcases List.mem_cons.mp hy with rfl | hyl
        · exact le_trans (le_of_not_lt hx) h2
        · exact h3 y hyl
      · rcases h4 with h4 | ⟨y, hy, hys⟩
        · exact Or.inl h4
        · exact Or.inr ⟨y, List.mem_cons_of_mem x hy, hys⟩

/-! ### The iteration loop, generic in the per-iteration body

Each of the four CLEAN routines is a `for (i = 0; i < maxiter; i++)` loop
whose body either returns a signed iteration count or falls through to the
next iteration; if the loop completes, `maxiter` is returned.  `cleanLoop`
is that control skeleton, generic in the body; the exit kind records which
of the three exits produced the result (the C code communicates this purely
through the sign/magnitude of the returned count). -/

inductive ExitKind where
  | diverged
  | converged
  | budget
deriving DecidableEq, Repr

inductive Step (σ : Type) where
  | ret (k : ExitKind) (code : Int) (s : σ)
  | cont (s : σ)

def cleanLoop {σ : Type} (body : ℕ → σ → Step σ) (maxiter : ℕ) :
    List ℕ → σ → ExitKind × Int × σ
  | [], s => (.budget, (maxiter : Int), s)
  | i :: rest, s =>
    match body i s with
    | .ret k code s2 => (k, code, s2)
    | .cont s2 => cleanLoop body maxiter rest s2

/-- The state after running the bodies of the listed iterations, provided
every one of them fell through (`none` otherwise). -/
def runCont {σ : Type} (body : ℕ → σ → Step σ) : List ℕ → σ → Option σ
  | [], s => some s
  | i :: rest, s =>
    match body i s with
    | .ret _ _ _ => none
    | .cont s2 => runCont body rest s2

/-- Like `runCont`, but additionally requires the predicate `fires` to be
false at the start of every traversed iteration (used to express "neither
the divergence nor the convergence check fires"). -/
def runNoFire {σ : Type} (body : ℕ → σ → Step σ) (fires : σ → Bool) :
    List ℕ → σ → Option σ
  | [], s => some s
  | i :: rest, s =>
    if fires s then none
    else
      match body i s with
      | .ret _ _ _ => none
      | .cont s2 => runNoFire body fires rest s2

theorem runNoFire_imp_runCont {σ : Type} (body : ℕ → σ → Step σ)
    (fires : σ → Bool) (l : List ℕ) (s t : σ)
    (h : runNoFire body fires l s = some t) :
    runCont body l s = some t := by
  induction l generalizing s with
  | nil => exact h
  | cons i rest ih =>
    rw [runNoFire] at h
    by_cases hf : fires s
    · rw [if_pos hf] at h
      exact absurd h (by simp)
    · rw [if_neg hf] at h
      rw [runCont]
      cases hb : body i s with
      | ret k1 c1 s1 => rw [hb] at h; exact absurd h (by simp)
      | cont s2 => rw [hb] at h; exact ih s2 h

/-- If every body of the listed iterations falls through, the loop returns
`maxiter` with the state after the last executed iteration. -/
theorem cleanLoop_budget {σ : Type} (body : ℕ → σ → Step σ) (maxiter : ℕ)
    (l : List ℕ) (s t : σ) (h : runCont body l s = some t) :
    cleanLoop body maxiter l s = (.budget, (maxiter : Int), t) := by
  induction l generalizing s with
  | nil =>
    rw [runCont] at h
    injection h with h
    rw [cleanLoop, h]
  | cons i rest ih =>
    rw [runCont] at h
    rw [cleanLoop]
    cases hb : body i s with
    | ret k c s2 => rw [hb] at h; exact absurd h (by simp)
    | cont s2 => rw [hb] at h; exact ih s2 h

theorem range'_cons (i n : ℕ) :
    List.range' i (n + 1) = i :: List.range' (i + 1) n := rfl

/-- If the loop over iterations `i, …, i + n - 1` did not exhaust the
budget, some iteration `i + m` returned the result, and all `m` earlier
iterations fell through. -/
theorem cleanLoop_ret {σ : Type} (body : ℕ → σ → Step σ) (maxiter : ℕ) :
    ∀ (n i : ℕ) (s : σ) (k : ExitKind) (r : Int) (t : σ),
      cleanLoop body maxiter (List.range' i n) s = (k, r, t) →
      k ≠ .budget →
      ∃ m < n, ∃ u, runCont body (List.range' i m) s = some u ∧
        body (i + m) u = .ret k r t := by
  intro n
  induction n with
  | zero =>
    intro i s k r t h hk
    rw [List.range'_zero, cleanLoop] at h
    injection h with h1 h2
    exact absurd h1.symm hk
  | succ n ih =>
    intro i s k r t h hk
    rw [range'_cons, cleanLoop] at h
    cases hb : body i s with
    | ret k1 c1 s1 =>
      rw [hb] at h
      injection h with h1 h2
      injection h2 with h2 h3
      refine ⟨0, by omega, s, by rw [List.range'_zero]; rfl, ?_⟩
      rw [Nat.add_zero, hb, h1, h2, h3]
    | cont s2 =>
      rw [hb] at h
      obtain ⟨m, hm, u, hu, hbody⟩ := ih (i + 1) s2 k r t h hk
      refine ⟨m + 1, by omega, u, ?_, ?_⟩
      · rw [range'_cons, runCont, hb]
        exact hu
      · have harith : i + 1 + m = i + (m + 1) := by omega
        rw [← harith]
        exact hbody

theorem runCont_prefix {σ : Type} (body : ℕ → σ → Step σ) :
    ∀ (j n i : ℕ) (s t : σ), j ≤ n →
      runCont body (List.range' i n) s = some t →
      ∃ u, runCont body (List.range' i j) s = some u := by
  intro j
  induction j with
  | zero =>
    intro n i s t hj h
    exact ⟨s, by rw [List.range'_zero]; rfl⟩
  | succ j ih =>
    intro n i s t hj h
    cases n with
    | zero => omega
    | succ n =>
      rw [range'_cons, runCont] at h
      cases hb : body i s with
      | ret k c s1 => rw [hb] at h; exact absurd h (by simp)
      | cont s2 =>
        rw [hb] at h
        obtain ⟨u, hu⟩ := ih n (i + 1) s2 t (by omega) h
        refine ⟨u, ?_⟩
        rw [range'_cons, runCont, hb]
        exact hu

/-- Along a fall-through trace, the body at each traversed iteration `j`
fell through. -/
theorem runCont_step {σ : Type} (body : ℕ → σ → Step σ) :
    ∀ (j n i : ℕ) (s t : σ), j < n →
      runCont body (List.range' i n) s = some t →
      ∀ u, runCont body (List.range' i j) s = some u →
        ∃ v, body (i + j) u = .cont v := by
  intro j
  induction j with
  | zero =>
    intro n i s t hj h u hu
    rw [List.range'_zero, runCont] at hu
    injection hu with hu
    cases n with
    | zero => omega
    | succ n =>
      rw [range'_cons, runCont] at h
      cases hb : body i s with
      | ret k c s1 => rw [hb] at h; exact absurd h (by simp)
      | cont s2 => exact ⟨s2, by rw [Nat.add_zero, ← hu]; exact hb⟩
  | succ j ih =>
    intro n i s t hj h u hu
    cases n with
    | zero => omega
    | succ n =>
      rw [range'_cons, runCont] at h hu
      cases hb : body i s with
      | ret k c s1 =>
        rw [hb] at hu
        exact absurd hu (by simp)
      | cont s2 =>
        rw [hb] at h hu
        have harith : i + (j + 1) = i + 1 + j := by omega
        rw [harith]
        exact ih n (i + 1) s2 t (by omega) h u hu

/-- If every body return code at iteration `i` is `i` or `-i`, any
non-budget loop result is `j` or `-j` for some listed iteration `j`. -/
theorem cleanLoop_code {σ : Type} (body : ℕ → σ → Step σ) (maxiter : ℕ)
    (hb : ∀ i s k r t, body i s = .ret k r t → r = (i : Int) ∨ r = -(i : Int))
    (l : List ℕ) (s : σ) (k : ExitKind) (r : Int) (t : σ)
    (h : cleanLoop body maxiter l s = (k, r, t)) :
    r = (maxiter : Int) ∨ ∃ j ∈ l, r = (j : Int) ∨ r = -(j : Int) := by
  induction l generalizing s with
  | nil =>
    rw [cleanLoop] at h
    injection h with h1 h2
    injection h2 with h2 h3
    exact Or.inl h2.symm
  | cons i rest ih =>
    rw [cleanLoop] at h
    cases hstep : body i s with
    | ret k1 c1 s1 =>
      rw [hstep] at h
      injection h with h1 h2
      injection h2 with h2 h3
      exact Or.inr ⟨i, List.mem_cons_self i rest,
        h2 ▸ hb i s k1 c1 s1 hstep⟩
    | cont s2 =>
      rw [hstep] at h
      rcases ih s2 h with h1 | ⟨j, hj, hr⟩
      · exact Or.inl h1
      · exact Or.inr ⟨j, List.mem_cons_of_mem i hj, hr⟩

/-! ### Exact square root on perfect rational squares

Used to instantiate `sqrtFn` on concrete traces whose RMS arguments are
perfect squares of rationals, so the embedded comparisons decide exactly as
the C `sqrt` does on those runs. -/

def natSqrtBelow (n : ℕ) : ℕ :=
  (List.range (n + 1)).foldl (fun a k => if k * k ≤ n then k else a) 0

def ratSqrt (x : ℚ) : ℚ :=
  (natSqrtBelow x.num.toNat : ℚ) / (natSqrtBelow x.den : ℚ)

/-! ## Clean::clean_1d_r (deconv.cpp lines 126-183)

1-D real-valued clean.  Loop variables of the C code that survive an
iteration (`score`, `firstscore`, `max`, `argmax`, plus the two buffers)
form the state `St1r`; the per-element scan accumulators (`nscore`, `mmax`,
`nargmax`, `max`, and the residual being updated in place) form `Scan1r`. -/

structure St1r where
  res : List ℚ
  mdl : List ℚ
  score : ℚ
  firstscore : ℚ
  max : ℚ
  argmax : ℕ
deriving DecidableEq

structure Scan1r where
  res : List ℚ
  nsum : ℚ
  mmax : ℚ
  nargmax : ℕ
  max : ℚ
deriving DecidableEq

/-- The scalar context of one `clean_1d_r` call: the sqrt routine, the
kernel, `gain`, the kernel normalisation `q`, `tol`, and `dim`. -/
structure Ctx1r where
  sqrtFn : ℚ → ℚ
  ker : List ℚ
  gain : ℚ
  q : ℚ
  tol : ℚ
  dim : ℕ

/-- Body of the inner `for (n...)` loop (lines 149-160): subtract
`ker[n] * step` from `res` at the wrapped index, then accumulate the score
sum and the running maximum from the value just written. -/
def scanBody1r (c : Ctx1r) (step : ℚ) (argmax : ℕ) (a : Scan1r) (n : ℕ) :
    Scan1r :=
  let wrap := (n + argmax) % c.dim
  let res2 := a.res.set wrap (a.res.getD wrap 0 - c.ker.getD n 0 * step)
  let val := res2.getD wrap 0
  let mval := val * val
  if a.mmax < mval then ⟨res2, a.nsum + mval, mval, wrap, val⟩
  else ⟨res2, a.nsum + mval, a.mmax, a.nargmax, a.max⟩

/-- `step = gain * max * q` (line 146). -/
def stepOf1r (c : Ctx1r) (s : St1r) : ℚ := c.gain * s.max * c.q

/-- The completed inner scan of one iteration. -/
def iterScan1r (c : Ctx1r) (s : St1r) : Scan1r :=
  (List.range c.dim).foldl (scanBody1r c (stepOf1r c s) s.argmax)
    ⟨s.res, 0, -1, s.argmax, s.max⟩

/-- `nscore = sqrt(nscore / dim)` (line 161). -/
def iterNscore1r (c : Ctx1r) (s : St1r) : ℚ :=
  c.sqrtFn ((iterScan1r c s).nsum / (c.dim : ℚ))

/-- `if (firstscore < 0) firstscore = nscore` (line 162). -/
def iterFirst1r (c : Ctx1r) (s : St1r) : ℚ :=
  if s.firstscore < 0 then iterNscore1r c s else s.firstscore

/-- `mdl[argmax] += step` (line 147). -/
def mdlAdd1r (c : Ctx1r) (s : St1r) : List ℚ :=
  s.mdl.set s.argmax (s.mdl.getD s.argmax 0 + stepOf1r c s)

/-- The divergence check `score > 0 && nscore > score` (line 167). -/
def divergeCond1r (c : Ctx1r) (s : St1r) : Prop :=
  0 < s.score ∧ s.score < iterNscore1r c s

/-- The convergence check `score > 0 && (score - nscore) / firstscore < tol`
(line 175), evaluated after the `firstscore` update. -/
def convergeCond1r (c : Ctx1r) (s : St1r) : Prop :=
  0 < s.score ∧ (s.score - iterNscore1r c s) / iterFirst1r c s < c.tol

instance (c : Ctx1r) (s : St1r) : Decidable (divergeCond1r c s) :=
  inferInstanceAs (Decidable (0 < s.score ∧ s.score < iterNscore1r c s))

instance (c : Ctx1r) (s : St1r) : Decidable (convergeCond1r c s) :=
  inferInstanceAs (Decidable
    (0 < s.score ∧ (s.score - iterNscore1r c s) / iterFirst1r c s < c.tol))

/-- The rollback loop of the divergence branch (lines 170-173): add back
`ker[n] * step` at every wrapped index. -/
def rollbackRes1r (c : Ctx1r) (s : St1r) : List ℚ :=
  (List.range c.dim).foldl (fun r n =>
      r.set ((n + s.argmax) % c.dim)
        (r.getD ((n + s.argmax) % c.dim) 0 + c.ker.getD n 0 * stepOf1r c s))
    (iterScan1r c s).res

/-- `mdl[argmax] -= step` of the divergence branch (line 169). -/
def rollbackMdl1r (c : Ctx1r) (s : St1r) : List ℚ :=
  (mdlAdd1r c s).set s.argmax
    ((mdlAdd1r c s).getD s.argmax 0 - stepOf1r c s)

/-- The fall-through state commit `score = nscore; argmax = nargmax`
(lines 179-180); `max` and the buffers were already updated in place. -/
def commit1r (c : Ctx1r) (s : St1r) : St1r :=
  ⟨(iterScan1r c s).res, mdlAdd1r c s, iterNscore1r c s, iterFirst1r c s,
    (iterScan1r c s).max, (iterScan1r c s).nargmax⟩

/-- One full iteration of the clean loop (lines 143-181). -/
def body1r (c : Ctx1r) (i : ℕ) (s : St1r) : Step St1r :=
  if divergeCond1r c s then
    .ret .diverged (-(i : Int))
      ⟨rollbackRes1r c s, rollbackMdl1r c s, s.score, iterFirst1r c s,
        (iterScan1r c s).max, s.argmax⟩
  else if convergeCond1r c s then
    .ret .converged (i : Int)
      ⟨(iterScan1r c s).res, mdlAdd1r c s, s.score, iterFirst1r c s,
        (iterScan1r c s).max, (iterScan1r c s).nargmax⟩
  else .cont (commit1r c s)

/-- The kernel normalisation of `clean_1d_r` (lines 133-141): single scan
for the element of maximum squared value, then `q = 1/q`. -/
def kernelQ1r (ker : List ℚ) (dim : ℕ) : ℚ :=
  1 / (peakFold (fun n => ker.getD n 0) (fun v => v * v)
    (List.range dim) (0, 0)).1

/-- `Clean<T>::clean_1d_r`: initial state `score = -1`, `firstscore = -1`,
`max = 0`, `argmax = 0`, then the clean loop for `maxiter` iterations. -/
def clean_1d_r (sqrtFn : ℚ → ℚ) (res ker mdl : List ℚ) (gain : ℚ)
    (maxiter : ℕ) (tol : ℚ) : ExitKind × Int × St1r :=
  cleanLoop (body1r ⟨sqrtFn, ker, gain, kernelQ1r ker res.length, tol,
    res.length⟩) maxiter (List.range maxiter) ⟨res, mdl, -1, -1, 0, 0⟩

/-- The context `clean_1d_r` runs its loop in. -/
def ctxOf1r (sqrtFn : ℚ → ℚ) (res ker : List ℚ) (gain tol : ℚ) : Ctx1r :=
  ⟨sqrtFn, ker, gain, kernelQ1r ker res.length, tol, res.length⟩

theorem clean_1d_r_eq_loop (sqrtFn : ℚ → ℚ) (res ker mdl : List ℚ)
    (gain : ℚ) (maxiter : ℕ) (tol : ℚ) :
    clean_1d_r sqrtFn res ker mdl gain maxiter tol =
      cleanLoop (body1r (ctxOf1r sqrtFn res ker gain tol)) maxiter
        (List.range maxiter) ⟨res, mdl, -1, -1, 0, 0⟩ := rfl

theorem scanBody1r_res (c : Ctx1r) (step : ℚ) (argmax : ℕ) (a : Scan1r)
    (n : ℕ) :
    (scanBody1r c step argmax a n).res =
      addAt ((n + argmax) % c.dim) (-(c.ker.getD n 0 * step)) a.res := by
  simp only [scanBody1r, addAt]
  split
  · simp [sub_eq_add_neg]
  · simp [sub_eq_add_neg]

theorem scanFold1r_res (c : Ctx1r) (step : ℚ) (argmax : ℕ) (l : List ℕ)
    (a : Scan1r) :
    (l.foldl (scanBody1r c step argmax) a).res =
      addFold (fun n => (n + argmax) % c.dim)
        (fun n => -(c.ker.getD n 0 * step)) l a.res := by
  induction l generalizing a with
  | nil => rfl
  | cons n l ih =>
    rw [List.foldl_cons, addFold_cons, ih, scanBody1r_res]

theorem iterScan1r_res (c : Ctx1r) (s : St1r) :
    (iterScan1r c s).res =
      addFold (fun n => (n + s.argmax) % c.dim)
        (fun n => -(c.ker.getD n 0 * stepOf1r c s)) (List.range c.dim)
        s.res := by
  unfold iterScan1r
  rw [scanFold1r_res]

theorem rollbackRes1r_eq (c : Ctx1r) (s : St1r) :
    rollbackRes1r c s =
      addFold (fun n => (n + s.argmax) % c.dim)
        (fun n => c.ker.getD n 0 * stepOf1r c s) (List.range c.dim)
        (iterScan1r c s).res := rfl

theorem addAt_zero (k : ℕ) (l : List ℚ) : addAt k 0 l = l := by
  by_cases h : k < l.length
  · unfold addAt
    rw [add_zero]
    exact set_getD_self l k h
  · exact addAt_out_of_range k 0 l (by omega)

/-- Rollback of the residual updates is exact: the divergence branch
restores `res` to its value at the start of the iteration. -/
theorem rollbackRes1r_exact (c : Ctx1r) (s : St1r) :
    rollbackRes1r c s = s.res := by
  rw [rollbackRes1r_eq, iterScan1r_res]
  exact addFold_neg_cancel (fun n => (n + s.argmax) % c.dim)
    (fun n => c.ker.getD n 0 * stepOf1r c s) (List.range c.dim) s.res

/-- Rollback of the model update is exact. -/
theorem rollbackMdl1r_exact (c : Ctx1r) (s : St1r) :
    rollbackMdl1r c s = s.mdl := by
  have h1 : rollbackMdl1r c s =
      addAt s.argmax (-(stepOf1r c s)) (mdlAdd1r c s) := by
    unfold rollbackMdl1r addAt
    rw [sub_eq_add_neg]
  have h2 : mdlAdd1r c s = addAt s.argmax (stepOf1r c s) s.mdl := rfl
  rw [h1, h2, addAt_addAt_same]
  simp only [add_neg_cancel]
  exact addAt_zero s.argmax s.mdl

theorem body1r_cont_iff (c : Ctx1r) (i : ℕ) (s t : St1r) :
    body1r c i s = .cont t ↔
      ¬divergeCond1r c s ∧ ¬convergeCond1r c s ∧ t = commit1r c s := by
  unfold body1r
  by_cases h1 : divergeCond1r c s
  · rw [if_pos h1]
    simp [h1]
  · rw [if_neg h1]
    by_cases h2 : convergeCond1r c s
    · rw [if_pos h2]
      simp [h1, h2]
    · rw [if_neg h2]
      constructor
      · intro h
        injection h with h
        exact ⟨h1, h2, h.symm⟩
      · intro ⟨_, _, h⟩
        rw [h]

theorem body1r_diverged (c : Ctx1r) (i : ℕ) (s : St1r) (r : Int) (t : St1r)
    (h : body1r c i s = .ret .diverged r t) :
    divergeCond1r c s ∧ r = -(i : Int) ∧
      t = ⟨rollbackRes1r c s, rollbackMdl1r c s, s.score, iterFirst1r c s,
        (iterScan1r c s).max, s.argmax⟩ := by
  unfold body1r at h
  by_cases h1 : divergeCond1r c s
  · rw [if_pos h1] at h
    injection h with hk hr ht
    exact ⟨h1, hr.symm, ht.symm⟩
  · rw [if_neg h1] at h
    by_cases h2 : convergeCond1r c s
    · rw [if_pos h2] at h
      injection h with hk
      exact absurd hk (by simp)
    · rw [if_neg h2] at h
      exact absurd h (by simp)

theorem body1r_converged (c : Ctx1r) (i : ℕ) (s : St1r) (r : Int) (t : St1r)
    (h : body1r c i s = .ret .converged r t) :
    ¬divergeCond1r c s ∧ convergeCond1r c s ∧ r = (i : Int) ∧
      t = ⟨(iterScan1r c s).res, mdlAdd1r c s, s.score, iterFirst1r c s,
        (iterScan1r c s).max, (iterScan1r c s).nargmax⟩ := by
  unfold body1r at h
  by_cases h1 : divergeCond1r c s
  · rw [if_pos h1] at h
    injection h with hk
    exact absurd hk (by simp)
  · rw [if_neg h1] at h
    by_cases h2 : convergeCond1r c s
    · rw [if_pos h2] at h
      injection h with hk hr ht
      exact ⟨h1, h2, hr.symm, ht.symm⟩
    · rw [if_neg h2] at h
      exact absurd h (by simp)

theorem body1r_code (c : Ctx1r) (i : ℕ) (s : St1r) (k : ExitKind) (r : Int)
    (t : St1r) (h : body1r c i s = .ret k r t) :
    r = (i : Int) ∨ r = -(i : Int) := by
  unfold body1r at h
  by_cases h1 : divergeCond1r c s
  · rw [if_pos h1] at h
    injection h with hk hr ht
    exact Or.inr hr.symm
  · rw [if_neg h1] at h
    by_cases h2 : convergeCond1r c s
    · rw [if_pos h2] at h
      injection h with hk hr ht
      exact Or.inl hr.symm
    · rw [if_neg h2] at h
      exact absurd h (by simp)

/-- With a non-positive committed score (in particular the initial sentinel
`score = -1`) neither check can fire: the body falls through. -/
theorem body1r_of_score_nonpos (c : Ctx1r) (i : ℕ) (s : St1r)
    (h : s.score ≤ 0) : body1r c i s = .cont (commit1r c s) := by
  have hd : ¬divergeCond1r c s := fun hc => absurd hc.1 (not_lt.mpr h)
  have hcv : ¬convergeCond1r c s := fun hc => absurd hc.1 (not_lt.mpr h)
  unfold body1r
  rw [if_neg hd, if_neg hcv]

/-- `fires1r c s` decides whether either the divergence or the convergence
check of `clean_1d_r` would fire at the start of an iteration in state
`s`. -/
def fires1r (c : Ctx1r) (s : St1r) : Bool :=
  decide (divergeCond1r c s) || decide (convergeCond1r c s)

/-- Loop-level divergence rollback for `clean_1d_r`: a `-k` return leaves
`res` and `mdl` exactly as they were at the start of iteration `k`. -/
theorem clean_1d_r_diverge_rollback (sqrtFn : ℚ → ℚ)
    (res ker mdl : List ℚ) (gain : ℚ) (maxiter : ℕ) (tol : ℚ) (r : Int)
    (t : St1r)
    (h : clean_1d_r sqrtFn res ker mdl gain maxiter tol = (.diverged, r, t)) :
    ∃ k < maxiter, ∃ sk,
      runCont (body1r (ctxOf1r sqrtFn res ker gain tol)) (List.range k)
        ⟨res, mdl, -1, -1, 0, 0⟩ = some sk ∧
      divergeCond1r (ctxOf1r sqrtFn res ker gain tol) sk ∧
      r = -(k : Int) ∧ t.res = sk.res ∧ t.mdl = sk.mdl := by
  rw [clean_1d_r_eq_loop, List.range_eq_range'] at h
  obtain ⟨m, hm, u, hu, hbody⟩ :=
    cleanLoop_ret (body1r (ctxOf1r sqrtFn res ker gain tol)) maxiter maxiter
      0 ⟨res, mdl, -1, -1, 0, 0⟩ .diverged r t h (by simp)
  obtain ⟨hdiv, hr, ht⟩ :=
    body1r_diverged (ctxOf1r sqrtFn res ker gain tol) (0 + m) u r t hbody
  refine ⟨m, hm, u, by rw [List.range_eq_range']; exact hu, hdiv, ?_, ?_, ?_⟩
  · rw [hr]
    omega
  · rw [ht]
    exact rollbackRes1r_exact _ u
  · rw [ht]
    exact rollbackMdl1r_exact _ u

/-- Convergence law of the 1-D real routine: if `clean_1d_r` returns
through the convergence check, then at that iteration a previously
committed score existed (`score > 0`), the normalised improvement
`(score - nscore) / firstscore` fell below `tol`, no earlier iteration
satisfied the convergence check, and the iteration's `res` and `mdl`
updates are kept, not rolled back.  This holds for the three routines
whose divergence branch returns; it fails for `clean_2d_c`, whose missing
divergence `return` lets a run pass through an iteration at which the
inequality already held (see the claim C3 theorem below). -/
theorem clean_1d_r_convergence_law (sqrtFn : ℚ → ℚ)
    (res ker mdl : List ℚ) (gain : ℚ) (maxiter : ℕ) (tol : ℚ) (r : Int)
    (t : St1r)
    (h : clean_1d_r sqrtFn res ker mdl gain maxiter tol =
      (.converged, r, t)) :
    ∃ k < maxiter, ∃ sk,
      runCont (body1r (ctxOf1r sqrtFn res ker gain tol)) (List.range k)
        ⟨res, mdl, -1, -1, 0, 0⟩ = some sk ∧
      r = (k : Int) ∧
      0 < sk.score ∧
      (sk.score - iterNscore1r (ctxOf1r sqrtFn res ker gain tol) sk) /
        iterFirst1r (ctxOf1r sqrtFn res ker gain tol) sk < tol ∧
      t.res = (iterScan1r (ctxOf1r sqrtFn res ker gain tol) sk).res ∧
      t.mdl = mdlAdd1r (ctxOf1r sqrtFn res ker gain tol) sk ∧
      (∀ j < k, ∀ sj,
        runCont (body1r (ctxOf1r sqrtFn res ker gain tol)) (List.range j)
          ⟨res, mdl, -1, -1, 0, 0⟩ = some sj →
        ¬convergeCond1r (ctxOf1r sqrtFn res ker gain tol) sj) := by
  rw [clean_1d_r_eq_loop, List.range_eq_range'] at h
  obtain ⟨m, hm, u, hu, hbody⟩ :=
    cleanLoop_ret (body1r (ctxOf1r sqrtFn res ker gain tol)) maxiter maxiter
      0 ⟨res, mdl, -1, -1, 0, 0⟩ .converged r t h (by simp)
  obtain ⟨hnd, hcv, hr, ht⟩ :=
    body1r_converged (ctxOf1r sqrtFn res ker gain tol) (0 + m) u r t hbody
  refine ⟨m, hm, u, by rw [List.range_eq_range']; exact hu, by rw [hr]; omega,
    hcv.1, hcv.2, by rw [ht], by rw [ht], ?_⟩
  intro j hj sj hsj
  rw [List.range_eq_range'] at hsj
  obtain ⟨v, hv⟩ :=
    runCont_step (body1r (ctxOf1r sqrtFn res ker gain tol)) j m 0
      ⟨res, mdl, -1, -1, 0, 0⟩ u hj hu sj hsj
  obtain ⟨_, hnc, _⟩ :=
    (body1r_cont_iff (ctxOf1r sqrtFn res ker gain tol) (0 + j) sj v).mp hv
  exact hnc

/-- Budget exhaustion for `clean_1d_r`: if neither check fires during the
first `maxiter` iterations, the call returns exactly `maxiter` and the
buffers hold the state after the final executed iteration. -/
theorem clean_1d_r_budget (sqrtFn : ℚ → ℚ) (res ker mdl : List ℚ)
    (gain : ℚ) (maxiter : ℕ) (tol : ℚ) (t : St1r)
    (h : runNoFire (body1r (ctxOf1r sqrtFn res ker gain tol))
      (fires1r (ctxOf1r sqrtFn res ker gain tol)) (List.range maxiter)
      ⟨res, mdl, -1, -1, 0, 0⟩ = some t) :
    clean_1d_r sqrtFn res ker mdl gain maxiter tol =
      (.budget, (maxiter : Int), t) := by
  rw [clean_1d_r_eq_loop]
  exact cleanLoop_budget _ maxiter _ _ t
    (runNoFire_imp_runCont _ _ _ _ t h)

/-- `clean_1d_r` never returns 0 when `maxiter ≥ 1`: the checks cannot fire
at iteration 0 because `score` starts at the sentinel `-1`. -/
theorem clean_1d_r_ne_zero (sqrtFn : ℚ → ℚ) (res ker mdl : List ℚ)
    (gain : ℚ) (maxiter : ℕ) (tol : ℚ) (h : 1 ≤ maxiter) :
    (clean_1d_r sqrtFn res ker mdl gain maxiter tol).2.1 ≠ 0 := by
  rcases he : clean_1d_r sqrtFn res ker mdl gain maxiter tol with ⟨k, r, t⟩
  rw [clean_1d_r_eq_loop] at he
  cases maxiter with
  | zero => omega
  | succ m =>
    have hrange : List.range (m + 1) = 0 :: List.range' 1 m := by
      rw [List.range_eq_range', range'_cons]
    rw [hrange, cleanLoop,
      body1r_of_score_nonpos (ctxOf1r sqrtFn res ker gain tol) 0
        ⟨res, mdl, -1, -1, 0, 0⟩ (by norm_num)] at he
    rcases cleanLoop_code (body1r (ctxOf1r sqrtFn res ker gain tol)) (m + 1)
      (body1r_code _) (List.range' 1 m) _ k r t he with h1 | ⟨j, hj, hr⟩
    · simp only [h1]
      intro hc
      have : ((m : Int) + 1) = 0 := by push_cast at hc ⊢; omega
      omega
    · have hj1 : 1 ≤ j := by
        have := List.mem_range'_1.mp hj
        omega
      rcases hr with hr | hr <;> simp only [hr] <;> intro hc <;> omega

/-- The normalisation constant of `clean_1d_r`: `q = 1 / p` where `p` is a
kernel element of maximal squared value (so `q` keeps the raw peak's sign,
negative peaks included). -/
theorem kernelQ1r_spec (ker : List ℚ) (dim : ℕ)
    (h : ∃ n, n < dim ∧ ker.getD n 0 ≠ 0) :
    ∃ n, n < dim ∧ ker.getD n 0 ≠ 0 ∧
      kernelQ1r ker dim = 1 / ker.getD n 0 ∧
      (∀ m, m < dim → ker.getD m 0 * ker.getD m 0 ≤
        ker.getD n 0 * ker.getD n 0) ∧
      (0 < ker.getD n 0 → 0 < kernelQ1r ker dim) ∧
      (ker.getD n 0 < 0 → kernelQ1r ker dim < 0) := by
  obtain ⟨n0, hn0, hker0⟩ := h
  obtain ⟨h1, h2, h3, h4⟩ :=
    peakFold_spec (fun n => ker.getD n 0) (fun v => v * v) (List.range dim)
      (0, 0) (by norm_num)
  set r := peakFold (fun n => ker.getD n 0) (fun v => v * v)
    (List.range dim) (0, 0) with hr
  have hpos : 0 < r.2 := by
    have hb : ker.getD n0 0 * ker.getD n0 0 ≤ r.2 :=
      h3 n0 (List.mem_range.mpr hn0)
    have : 0 < ker.getD n0 0 * ker.getD n0 0 := mul_self_pos.mpr hker0
    linarith
  have hmem : ∃ x ∈ List.range dim, r.1 = ker.getD x 0 := by
    rcases h4 with h4 | h4
    · rw [h4] at hpos
      norm_num at hpos
    · exact h4
  obtain ⟨n, hn, hrn⟩ := hmem
  have hne : r.1 ≠ 0 := by
    intro hz
    rw [h1, hz] at hpos
    norm_num at hpos
  have hq : kernelQ1r ker dim = 1 / ker.getD n 0 := by
    rw [kernelQ1r, ← hr, hrn]
  refine ⟨n, List.mem_range.mp hn, by rw [← hrn]; exact hne, hq, ?_, ?_, ?_⟩
  · intro m2 hm2
    have := h3 m2 (List.mem_range.mpr hm2)
    rw [← hrn, ← h1]
    exact this
  · intro hp
    rw [hq]
    exact one_div_pos.mpr hp
  · intro hp
    rw [hq]
    exact one_div_neg.mpr hp

/-! ## Clean::clean_2d_r (deconv.cpp lines 53-119)

2-D real-valued clean.  The dim1 × dim2 arrays are embedded as row-major
flat lists (C index pair `(n1, n2)` at flat position `n1 * dim2 + n2`); the
nested `for n1 / for n2` loops become folds over `pairRange dim1 dim2`,
which lists the index pairs in the same order. -/

structure St2r where
  res : List ℚ
  mdl : List ℚ
  score : ℚ
  firstscore : ℚ
  max : ℚ
  argmax1 : ℕ
  argmax2 : ℕ
deriving DecidableEq

structure Scan2r where
  res : List ℚ
  nsum : ℚ
  mmax : ℚ
  nargmax1 : ℕ
  nargmax2 : ℕ
  max : ℚ
deriving DecidableEq

structure Ctx2r where
  sqrtFn : ℚ → ℚ
  ker : List ℚ
  gain : ℚ
  q : ℚ
  tol : ℚ
  dim1 : ℕ
  dim2 : ℕ

/-- Body of the inner double loop (lines 79-92): subtract
`ker[n1][n2] * step` from `res` at the wrapped index pair, then accumulate
the score sum and the running maximum. -/
def scanBody2r (c : Ctx2r) (step : ℚ) (a1 a2 : ℕ) (a : Scan2r)
    (p : ℕ × ℕ) : Scan2r :=
  let w1 := (p.1 + a1) % c.dim1
  let w2 := (p.2 + a2) % c.dim2
  let res2 := a.res.set (w1 * c.dim2 + w2)
    (a.res.getD (w1 * c.dim2 + w2) 0 -
      c.ker.getD (p.1 * c.dim2 + p.2) 0 * step)
  let val := res2.getD (w1 * c.dim2 + w2) 0
  let mval := val * val
  if a.mmax < mval then ⟨res2, a.nsum + mval, mval, w1, w2, val⟩
  else ⟨res2, a.nsum + mval, a.mmax, a.nargmax1, a.nargmax2, a.max⟩

def stepOf2r (c : Ctx2r) (s : St2r) : ℚ := c.gain * s.max * c.q

def iterScan2r (c : Ctx2r) (s : St2r) : Scan2r :=
  (pairRange c.dim1 c.dim2).foldl
    (scanBody2r c (stepOf2r c s) s.argmax1 s.argmax2)
    ⟨s.res, 0, -1, s.argmax1, s.argmax2, s.max⟩

/-- `nscore = sqrt(nscore / (dim1 * dim2))` (line 94). -/
def iterNscore2r (c : Ctx2r) (s : St2r) : ℚ :=
  c.sqrtFn ((iterScan2r c s).nsum / ((c.dim1 * c.dim2 : ℕ) : ℚ))

def iterFirst2r (c : Ctx2r) (s : St2r) : ℚ :=
  if s.firstscore < 0 then iterNscore2r c s else s.firstscore

def mdlAdd2r (c : Ctx2r) (s : St2r) : List ℚ :=
  s.mdl.set (s.argmax1 * c.dim2 + s.argmax2)
    (s.mdl.getD (s.argmax1 * c.dim2 + s.argmax2) 0 + stepOf2r c s)

def divergeCond2r (c : Ctx2r) (s : St2r) : Prop :=
  0 < s.score ∧ s.score < iterNscore2r c s

def convergeCond2r (c : Ctx2r) (s : St2r) : Prop :=
  0 < s.score ∧ (s.score - iterNscore2r c s) / iterFirst2r c s < c.tol

instance (c : Ctx2r) (s : St2r) : Decidable (divergeCond2r c s) :=
  inferInstanceAs (Decidable (0 < s.score ∧ s.score < iterNscore2r c s))

instance (c : Ctx2r) (s : St2r) : Decidable (convergeCond2r c s) :=
  inferInstanceAs (Decidable
    (0 < s.score ∧ (s.score - iterNscore2r c s) / iterFirst2r c s < c.tol))

/-- The rollback double loop of the divergence branch (lines 103-109). -/
def rollbackRes2r (c : Ctx2r) (s : St2r) : List ℚ :=
  (pairRange c.dim1 c.dim2).foldl (fun r p =>
      r.set ((p.1 + s.argmax1) % c.dim1 * c.dim2 + (p.2 + s.argmax2) % c.dim2)
        (r.getD ((p.1 + s.argmax1) % c.dim1 * c.dim2 +
            (p.2 + s.argmax2) % c.dim2) 0 +
          c.ker.getD (p.1 * c.dim2 + p.2) 0 * stepOf2r c s))
    (iterScan2r c s).res

/-- `mdl[argmax1][argmax2] -= step` of the divergence branch (line 102). -/
def rollbackMdl2r (c : Ctx2r) (s : St2r) : List ℚ :=
  (mdlAdd2r c s).set (s.argmax1 * c.dim2 + s.argmax2)
    ((mdlAdd2r c s).getD (s.argmax1 * c.dim2 + s.argmax2) 0 - stepOf2r c s)

def commit2r (c : Ctx2r) (s : St2r) : St2r :=
  ⟨(iterScan2r c s).res, mdlAdd2r c s, iterNscore2r c s, iterFirst2r c s,
    (iterScan2r c s).max, (iterScan2r c s).nargmax1,
    (iterScan2r c s).nargmax2⟩

/-- One full iteration of the 2-D real clean loop (lines 73-117). -/
def body2r (c : Ctx2r) (i : ℕ) (s : St2r) : Step St2r :=
  if divergeCond2r c s then
    .ret .diverged (-(i : Int))
      ⟨rollbackRes2r c s, rollbackMdl2r c s, s.score, iterFirst2r c s,
        (iterScan2r c s).max, s.argmax1, s.argmax2⟩
  else if convergeCond2r c s then
    .ret .converged (i : Int)
      ⟨(iterScan2r c s).res, mdlAdd2r c s, s.score, iterFirst2r c s,
        (iterScan2r c s).max, (iterScan2r c s).nargmax1,
        (iterScan2r c s).nargmax2⟩
  else .cont (commit2r c s)

/-- The kernel normalisation of `clean_2d_r` (lines 61-71). -/
def kernelQ2r (ker : List ℚ) (d1 d2 : ℕ) : ℚ :=
  1 / (peakFold (fun p : ℕ × ℕ => ker.getD (p.1 * d2 + p.2) 0)
    (fun v => v * v) (pairRange d1 d2) (0, 0)).1

/-- `Clean<T>::clean_2d_r`; `d1`, `d2` are the array dimensions the C code
reads from the array descriptor. -/
def clean_2d_r (sqrtFn : ℚ → ℚ) (res ker mdl : List ℚ) (d1 d2 : ℕ)
    (gain : ℚ) (maxiter : ℕ) (tol : ℚ) : ExitKind × Int × St2r :=
  cleanLoop (body2r ⟨sqrtFn, ker, gain, kernelQ2r ker d1 d2, tol, d1, d2⟩)
    maxiter (List.range maxiter) ⟨res, mdl, -1, -1, 0, 0, 0⟩

def ctxOf2r (sqrtFn : ℚ → ℚ) (ker : List ℚ) (gain tol : ℚ) (d1 d2 : ℕ) :
    Ctx2r :=
  ⟨sqrtFn, ker, gain, kernelQ2r ker d1 d2, tol, d1, d2⟩

theorem clean_2d_r_eq_loop (sqrtFn : ℚ → ℚ) (res ker mdl : List ℚ)
    (d1 d2 : ℕ) (gain : ℚ) (maxiter : ℕ) (tol : ℚ) :
    clean_2d_r sqrtFn res ker mdl d1 d2 gain maxiter tol =
      cleanLoop (body2r (ctxOf2r sqrtFn ker gain tol d1 d2)) maxiter
        (List.range maxiter) ⟨res, mdl, -1, -1, 0, 0, 0⟩ := rfl

/-- The wrapped flat destination index used by the 2-D scan and rollback. -/
def wrapIdx2 (c : Ctx2r) (a1 a2 : ℕ) (p : ℕ × ℕ) : ℕ :=
  (p.1 + a1) % c.dim1 * c.dim2 + (p.2 + a2) % c.dim2

theorem scanBody2r_res (c : Ctx2r) (step : ℚ) (a1 a2 : ℕ) (a : Scan2r)
    (p : ℕ × ℕ) :
    (scanBody2r c step a1 a2 a p).res =
      addAt (wrapIdx2 c a1 a2 p)
        (-(c.ker.getD (p.1 * c.dim2 + p.2) 0 * step)) a.res := by
  simp only [scanBody2r, addAt, wrapIdx2]
  split
  · simp [sub_eq_add_neg]
  · simp [sub_eq_add_neg]

theorem scanFold2r_res (c : Ctx2r) (step : ℚ) (a1 a2 : ℕ)
    (l : List (ℕ × ℕ)) (a : Scan2r) :
    (l.foldl (scanBody2r c step a1 a2) a).res =
      addFold (wrapIdx2 c a1 a2)
        (fun p => -(c.ker.getD (p.1 * c.dim2 + p.2) 0 * step)) l a.res := by
  induction l generalizing a with
  | nil => rfl
  | cons p l ih =>
    rw [List.foldl_cons, addFold_cons, ih, scanBody2r_res]

theorem iterScan2r_res (c : Ctx2r) (s : St2r) :
    (iterScan2r c s).res =
      addFold (wrapIdx2 c s.argmax1 s.argmax2)
        (fun p => -(c.ker.getD (p.1 * c.dim2 + p.2) 0 * stepOf2r c s))
        (pairRange c.dim1 c.dim2) s.res := by
  unfold iterScan2r
  rw [scanFold2r_res]

theorem rollbackRes2r_eq (c : Ctx2r) (s : St2r) :
    rollbackRes2r c s =
      addFold (wrapIdx2 c s.argmax1 s.argmax2)
        (fun p => c.ker.getD (p.1 * c.dim2 + p.2) 0 * stepOf2r c s)
        (pairRange c.dim1 c.dim2) (iterScan2r c s).res := rfl

theorem rollbackRes2r_exact (c : Ctx2r) (s : St2r) :
    rollbackRes2r c s = s.res := by
  rw [rollbackRes2r_eq, iterScan2r_res]
  exact addFold_neg_cancel (wrapIdx2 c s.argmax1 s.argmax2)
    (fun p => c.ker.getD (p.1 * c.dim2 + p.2) 0 * stepOf2r c s)
    (pairRange c.dim1 c.dim2) s.res

theorem rollbackMdl2r_exact (c : Ctx2r) (s : St2r) :
    rollbackMdl2r c s = s.mdl := by
  have h1 : rollbackMdl2r c s =
      addAt (s.argmax1 * c.dim2 + s.argmax2) (-(stepOf2r c s))
        (mdlAdd2r c s) := by
    unfold rollbackMdl2r addAt
    rw [sub_eq_add_neg]
  have h2 : mdlAdd2r c s =
      addAt (s.argmax1 * c.dim2 + s.argmax2) (stepOf2r c s) s.mdl := rfl
  rw [h1, h2, addAt_addAt_same]
  simp only [add_neg_cancel]
  exact addAt_zero _ s.mdl

theorem body2r_cont_iff (c : Ctx2r) (i : ℕ) (s t : St2r) :
    body2r c i s = .cont t ↔
      ¬divergeCond2r c s ∧ ¬convergeCond2r c s ∧ t = commit2r c s := by
  unfold body2r
  by_cases h1 : divergeCond2r c s
  · rw [if_pos h1]
    simp [h1]
  · rw [if_neg h1]
    by_cases h2 : convergeCond2r c s
    · rw [if_pos h2]
      simp [h1, h2]
    · rw [if_neg h2]
      constructor
      · intro h
        injection h with h
        exact ⟨h1, h2, h.symm⟩
      · intro ⟨_, _, h⟩
        rw [h]

theorem body2r_diverged (c : Ctx2r) (i : ℕ) (s : St2r) (r : Int) (t : St2r)
    (h : body2r c i s = .ret .diverged r t) :
    divergeCond2r c s ∧ r = -(i : Int) ∧
      t = ⟨rollbackRes2r c s, rollbackMdl2r c s, s.score, iterFirst2r c s,
        (iterScan2r c s).max, s.argmax1, s.argmax2⟩ := by
  unfold body2r at h
  by_cases h1 : divergeCond2r c s
  · rw [if_pos h1] at h
    injection h with hk hr ht
    exact ⟨h1, hr.symm, ht.symm⟩
  · rw [if_neg h1] at h
    by_cases h2 : convergeCond2r c s
    · rw [if_pos h2] at h
      injection h with hk
      exact absurd hk (by simp)
    · rw [if_neg h2] at h
      exact absurd h (by simp)

theorem body2r_code (c : Ctx2r) (i : ℕ) (s : St2r) (k : ExitKind) (r : Int)
    (t : St2r) (h : body2r c i s = .ret k r t) :
    r = (i : Int) ∨ r = -(i : Int) := by
  unfold body2r at h
  by_cases h1 : divergeCond2r c s
  · rw [if_pos h1] at h
    injection h with hk hr ht
    exact Or.inr hr.symm
  · rw [if_neg h1] at h
    by_cases h2 : convergeCond2r c s
    · rw [if_pos h2] at h
      injection h with hk hr ht
      exact Or.inl hr.symm
    · rw [if_neg h2] at h
      exact absurd h (by simp)

theorem body2r_of_score_nonpos (c : Ctx2r) (i : ℕ) (s : St2r)
    (h : s.score ≤ 0) : body2r c i s = .cont (commit2r c s) := by
  have hd : ¬divergeCond2r c s := fun hc => absurd hc.1 (not_lt.mpr h)
  have hcv : ¬convergeCond2r c s := fun hc => absurd hc.1 (not_lt.mpr h)
  unfold body2r
  rw [if_neg hd, if_neg hcv]

/-- Loop-level divergence rollback for `clean_2d_r`. -/
theorem clean_2d_r_diverge_rollback (sqrtFn : ℚ → ℚ)
    (res ker mdl : List ℚ) (d1 d2 : ℕ) (gain : ℚ) (maxiter : ℕ) (tol : ℚ)
    (r : Int) (t : St2r)
    (h : clean_2d_r sqrtFn res ker mdl d1 d2 gain maxiter tol =
      (.diverged, r, t)) :
    ∃ k < maxiter, ∃ sk,
      runCont (body2r (ctxOf2r sqrtFn ker gain tol d1 d2)) (List.range k)
        ⟨res, mdl, -1, -1, 0, 0, 0⟩ = some sk ∧
      divergeCond2r (ctxOf2r sqrtFn ker gain tol d1 d2) sk ∧
      r = -(k : Int) ∧ t.res = sk.res ∧ t.mdl = sk.mdl := by
  rw [clean_2d_r_eq_loop, List.range_eq_range'] at h
  obtain ⟨m, hm, u, hu, hbody⟩ :=
    cleanLoop_ret (body2r (ctxOf2r sqrtFn ker gain tol d1 d2)) maxiter
      maxiter 0 ⟨res, mdl, -1, -1, 0, 0, 0⟩ .diverged r t h (by simp)
  obtain ⟨hdiv, hr, ht⟩ :=
    body2r_diverged (ctxOf2r sqrtFn ker gain tol d1 d2) (0 + m) u r t hbody
  refine ⟨m, hm, u, by rw [List.range_eq_range']; exact hu, hdiv, ?_, ?_, ?_⟩
  · rw [hr]
    omega
  · rw [ht]
    exact rollbackRes2r_exact _ u
  · rw [ht]
    exact rollbackMdl2r_exact _ u

/-- `clean_2d_r` never returns 0 when `maxiter ≥ 1`. -/
theorem clean_2d_r_ne_zero (sqrtFn : ℚ → ℚ) (res ker mdl : List ℚ)
    (d1 d2 : ℕ) (gain : ℚ) (maxiter : ℕ) (tol : ℚ) (h : 1 ≤ maxiter) :
    (clean_2d_r sqrtFn res ker mdl d1 d2 gain maxiter tol).2.1 ≠ 0 := by
  rcases he : clean_2d_r sqrtFn res ker mdl d1 d2 gain maxiter tol
    with ⟨k, r, t⟩
  rw [clean_2d_r_eq_loop] at he
  cases maxiter with
  | zero => omega
  | succ m =>
    have hrange : List.range (m + 1) = 0 :: List.range' 1 m := by
      rw [List.range_eq_range', range'_cons]
    rw [hrange, cleanLoop,
      body2r_of_score_nonpos (ctxOf2r sqrtFn ker gain tol d1 d2) 0
        ⟨res, mdl, -1, -1, 0, 0, 0⟩ (by norm_num)] at he
    rcases cleanLoop_code (body2r (ctxOf2r sqrtFn ker gain tol d1 d2))
      (m + 1) (body2r_code _) (List.range' 1 m) _ k r t he
      with h1 | ⟨j, hj, hr⟩
    · simp only [h1]
      intro hc
      have : ((m : Int) + 1) = 0 := by push_cast at hc ⊢; omega
      omega
    · have hj1 : 1 ≤ j := by
        have := List.mem_range'_1.mp hj
        omega
      rcases hr with hr | hr <;> simp only [hr] <;> intro hc <;> omega

/-- Pointwise effect of the 1-D subtraction scan: every kernel offset `n`
is subtracted (scaled by `step`) at the wrapped destination
`(n + argmax) % dim`, which is always in range; no other position and no
out-of-range position is written. -/
theorem iterScan1r_pointwise (c : Ctx1r) (s : St1r)
    (hlen : s.res.length = c.dim) (n : ℕ) (hn : n < c.dim) :
    (n + s.argmax) % c.dim < c.dim ∧
    (iterScan1r c s).res.length = c.dim ∧
    (iterScan1r c s).res.getD ((n + s.argmax) % c.dim) 0 =
      s.res.getD ((n + s.argmax) % c.dim) 0 -
        c.ker.getD n 0 * stepOf1r c s := by
  have hdim : 0 < c.dim := by omega
  have hw : (n + s.argmax) % c.dim < c.dim := Nat.mod_lt _ hdim
  refine ⟨hw, ?_, ?_⟩
  · rw [iterScan1r_res, length_addFold, hlen]
  · rw [iterScan1r_res]
    have := addFold_getD_unique (fun m => (m + s.argmax) % c.dim)
      (fun m => -(c.ker.getD m 0 * stepOf1r c s)) (List.range c.dim)
      (List.nodup_range c.dim) n (List.mem_range.mpr hn)
      (fun y hy hwy =>
        wrap_inj y n s.argmax c.dim (List.mem_range.mp hy) hn hwy)
      s.res (by rw [hlen]; exact hw)
    rw [this, sub_eq_add_neg]

/-- Pointwise effect of the 2-D subtraction scan: every kernel offset pair
`(n1, n2)` is subtracted (scaled by `step`) at the per-axis wrapped
destination, always in range. -/
theorem iterScan2r_pointwise (c : Ctx2r) (s : St2r)
    (hlen : s.res.length = c.dim1 * c.dim2) (n1 n2 : ℕ) (hn1 : n1 < c.dim1)
    (hn2 : n2 < c.dim2) :
    wrapIdx2 c s.argmax1 s.argmax2 (n1, n2) < c.dim1 * c.dim2 ∧
    (iterScan2r c s).res.length = c.dim1 * c.dim2 ∧
    (iterScan2r c s).res.getD (wrapIdx2 c s.argmax1 s.argmax2 (n1, n2)) 0 =
      s.res.getD (wrapIdx2 c s.argmax1 s.argmax2 (n1, n2)) 0 -
        c.ker.getD (n1 * c.dim2 + n2) 0 * stepOf2r c s := by
  have hd1 : 0 < c.dim1 := by omega
  have hd2 : 0 < c.dim2 := by omega
  have hw1 : (n1 + s.argmax1) % c.dim1 < c.dim1 := Nat.mod_lt _ hd1
  have hw2 : (n2 + s.argmax2) % c.dim2 < c.dim2 := Nat.mod_lt _ hd2
  have hflat : wrapIdx2 c s.argmax1 s.argmax2 (n1, n2) < c.dim1 * c.dim2 := by
    unfold wrapIdx2
    calc (n1 + s.argmax1) % c.dim1 * c.dim2 + (n2 + s.argmax2) % c.dim2
        < (n1 + s.argmax1) % c.dim1 * c.dim2 + c.dim2 := by omega
      _ = ((n1 + s.argmax1) % c.dim1 + 1) * c.dim2 := by ring
      _ ≤ c.dim1 * c.dim2 := Nat.mul_le_mul_right c.dim2 (by omega)
  refine ⟨hflat, ?_, ?_⟩
  · rw [iterScan2r_res, length_addFold, hlen]
  · rw [iterScan2r_res]
    have huniq : ∀ p ∈ pairRange c.dim1 c.dim2,
        wrapIdx2 c s.argmax1 s.argmax2 p =
          wrapIdx2 c s.argmax1 s.argmax2 (n1, n2) → p = (n1, n2) := by
      intro p hp hwp
      obtain ⟨hp1, hp2⟩ := (mem_pairRange c.dim1 c.dim2 p.1 p.2).mp
        (by rwa [← Prod.mk.eta (p := p)] at hp)
      unfold wrapIdx2 at hwp
      obtain ⟨he1, he2⟩ := flat_index_inj _ _ _ _ c.dim2
        (Nat.mod_lt _ hd2) (Nat.mod_lt _ hd2) hwp
      have hq1 : p.1 = n1 := wrap_inj p.1 n1 s.argmax1 c.dim1 hp1 hn1 he1
      have hq2 : p.2 = n2 := wrap_inj p.2 n2 s.argmax2 c.dim2 hp2 hn2 he2
      rw [← Prod.mk.eta (p := p), hq1, hq2]
    have := addFold_getD_unique (wrapIdx2 c s.argmax1 s.argmax2)
      (fun p => -(c.ker.getD (p.1 * c.dim2 + p.2) 0 * stepOf2r c s))
      (pairRange c.dim1 c.dim2) (pairRange_nodup c.dim1 c.dim2) (n1, n2)
      ((mem_pairRange c.dim1 c.dim2 n1 n2).mpr ⟨hn1, hn2⟩) huniq
      s.res (by rw [hlen]; exact hflat)
    rw [this, sub_eq_add_neg]

/-! ## Clean::clean_2d_c (deconv.cpp lines 190-269)

2-D complex-valued clean.  Elements are (real, imaginary) pairs, exactly
the two adjacent `T` components the C macros `CIND2R`/`CIND2I` address.
NOTE the control-flow anomaly of this routine, embedded faithfully below:
its divergence branch (lines 246-259) undoes the model addition and the
residual updates but, unlike the other three routines, contains no
`return -i` — the only `return -i` of the routine sits unreachably after
`return i` in the convergence branch (lines 262-263).  Control therefore
falls through to `score = nscore; argmax1 = nargmax1; argmax2 = nargmax2`
(lines 265-266) and the loop continues. -/

structure St2c where
  res : List (ℚ × ℚ)
  mdl : List (ℚ × ℚ)
  score : ℚ
  firstscore : ℚ
  maxr : ℚ
  maxi : ℚ
  argmax1 : ℕ
  argmax2 : ℕ
deriving DecidableEq

structure Scan2c where
  res : List (ℚ × ℚ)
  nsum : ℚ
  mmax : ℚ
  nargmax1 : ℕ
  nargmax2 : ℕ
  maxr : ℚ
  maxi : ℚ
deriving DecidableEq

structure Ctx2c where
  sqrtFn : ℚ → ℚ
  ker : List (ℚ × ℚ)
  gain : ℚ
  qr : ℚ
  qi : ℚ
  tol : ℚ
  dim1 : ℕ
  dim2 : ℕ

/-- `stepr = gain * (maxr * qr - maxi * qi)` (line 216). -/
def stepR2c (c : Ctx2c) (s : St2c) : ℚ :=
  c.gain * (s.maxr * c.qr - s.maxi * c.qi)

/-- `stepi = gain * (maxr * qi + maxi * qr)` (line 217). -/
def stepI2c (c : Ctx2c) (s : St2c) : ℚ :=
  c.gain * (s.maxr * c.qi + s.maxi * c.qr)

/-- Body of the inner double loop (lines 221-238): complex subtraction of
`ker[n1][n2] * step` at the wrapped index pair, then score/maximum
accumulation from the value just written. -/
def scanBody2c (c : Ctx2c) (stepr stepi : ℚ) (a1 a2 : ℕ) (a : Scan2c)
    (p : ℕ × ℕ) : Scan2c :=
  let idx := (p.1 + a1) % c.dim1 * c.dim2 + (p.2 + a2) % c.dim2
  let kv := c.ker.getD (p.1 * c.dim2 + p.2) (0, 0)
  let cur := a.res.getD idx (0, 0)
  let res2 := a.res.set idx
    (cur.1 - (kv.1 * stepr - kv.2 * stepi),
     cur.2 - (kv.1 * stepi + kv.2 * stepr))
  let val := res2.getD idx (0, 0)
  let mval := val.1 * val.1 + val.2 * val.2
  if a.mmax < mval then
    ⟨res2, a.nsum + mval, mval, (p.1 + a1) % c.dim1, (p.2 + a2) % c.dim2,
      val.1, val.2⟩
  else ⟨res2, a.nsum + mval, a.mmax, a.nargmax1, a.nargmax2, a.maxr, a.maxi⟩

def iterScan2c (c : Ctx2c) (s : St2c) : Scan2c :=
  (pairRange c.dim1 c.dim2).foldl
    (scanBody2c c (stepR2c c s) (stepI2c c s) s.argmax1 s.argmax2)
    ⟨s.res, 0, -1, s.argmax1, s.argmax2, s.maxr, s.maxi⟩

def iterNscore2c (c : Ctx2c) (s : St2c) : ℚ :=
  c.sqrtFn ((iterScan2c c s).nsum / ((c.dim1 * c.dim2 : ℕ) : ℚ))

def iterFirst2c (c : Ctx2c) (s : St2c) : ℚ :=
  if s.firstscore < 0 then iterNscore2c c s else s.firstscore

/-- `mdl[argmax] += step` on both components (lines 218-219). -/
def mdlAdd2c (c : Ctx2c) (s : St2c) : List (ℚ × ℚ) :=
  s.mdl.set (s.argmax1 * c.dim2 + s.argmax2)
    ((s.mdl.getD (s.argmax1 * c.dim2 + s.argmax2) (0, 0)).1 + stepR2c c s,
     (s.mdl.getD (s.argmax1 * c.dim2 + s.argmax2) (0, 0)).2 + stepI2c c s)

def divergeCond2c (c : Ctx2c) (s : St2c) : Prop :=
  0 < s.score ∧ s.score < iterNscore2c c s

def convergeCond2c (c : Ctx2c) (s : St2c) : Prop :=
  0 < s.score ∧ (s.score - iterNscore2c c s) / iterFirst2c c s < c.tol

instance (c : Ctx2c) (s : St2c) : Decidable (divergeCond2c c s) :=
  inferInstanceAs (Decidable (0 < s.score ∧ s.score < iterNscore2c c s))

instance (c : Ctx2c) (s : St2c) : Decidable (convergeCond2c c s) :=
  inferInstanceAs (Decidable
    (0 < s.score ∧ (s.score - iterNscore2c c s) / iterFirst2c c s < c.tol))

/-- The rollback double loop of the divergence branch (lines 250-259). -/
def rollbackRes2c (c : Ctx2c) (s : St2c) : List (ℚ × ℚ) :=
  (pairRange c.dim1 c.dim2).foldl (fun r p =>
      let idx := (p.1 + s.argmax1) % c.dim1 * c.dim2 +
        (p.2 + s.argmax2) % c.dim2
      let kv := c.ker.getD (p.1 * c.dim2 + p.2) (0, 0)
      let cur := r.getD idx (0, 0)
      r.set idx
        (cur.1 + (kv.1 * stepR2c c s - kv.2 * stepI2c c s),
         cur.2 + (kv.1 * stepI2c c s + kv.2 * stepR2c c s)))
    (iterScan2c c s).res

/-- `mdl[argmax] -= step` of the divergence branch (lines 248-249). -/
def rollbackMdl2c (c : Ctx2c) (s : St2c) : List (ℚ × ℚ) :=
  (mdlAdd2c c s).set (s.argmax1 * c.dim2 + s.argmax2)
    (((mdlAdd2c c s).getD (s.argmax1 * c.dim2 + s.argmax2) (0, 0)).1 -
        stepR2c c s,
     ((mdlAdd2c c s).getD (s.argmax1 * c.dim2 + s.argmax2) (0, 0)).2 -
        stepI2c c s)

def commit2c (c : Ctx2c) (s : St2c) : St2c :=
  ⟨(iterScan2c c s).res, mdlAdd2c c s, iterNscore2c c s, iterFirst2c c s,
    (iterScan2c c s).maxr, (iterScan2c c s).maxi,
    (iterScan2c c s).nargmax1, (iterScan2c c s).nargmax2⟩

/-- One full iteration of the 2-D complex clean loop (lines 213-267).
In the divergence branch the buffers are rolled back but — because the
routine's `return -i` is unreachable dead code — the iteration still falls
through and commits `score = nscore; argmax = nargmax` (with `maxr`/`maxi`
already holding the scan maximum). -/
def body2c (c : Ctx2c) (i : ℕ) (s : St2c) : Step St2c :=
  if divergeCond2c c s then
    .cont ⟨rollbackRes2c c s, rollbackMdl2c c s, iterNscore2c c s,
      iterFirst2c c s, (iterScan2c c s).maxr, (iterScan2c c s).maxi,
      (iterScan2c c s).nargmax1, (iterScan2c c s).nargmax2⟩
  else if convergeCond2c c s then
    .ret .converged (i : Int)
      ⟨(iterScan2c c s).res, mdlAdd2c c s, s.score, iterFirst2c c s,
        (iterScan2c c s).maxr, (iterScan2c c s).maxi,
        (iterScan2c c s).nargmax1, (iterScan2c c s).nargmax2⟩
  else .cont (commit2c c s)

/-- Kernel peak scan of `clean_2d_c` (lines 199-209). -/
def kernelPeak2c (ker : List (ℚ × ℚ)) (d1 d2 : ℕ) : (ℚ × ℚ) × ℚ :=
  peakFold (fun p : ℕ × ℕ => ker.getD (p.1 * d2 + p.2) (0, 0))
    (fun v => v.1 * v.1 + v.2 * v.2) (pairRange d1 d2) ((0, 0), 0)

/-- `qr /= mq; qi = -qi / mq` (lines 210-211). -/
def kernelQ2c (ker : List (ℚ × ℚ)) (d1 d2 : ℕ) : ℚ × ℚ :=
  ((kernelPeak2c ker d1 d2).1.1 / (kernelPeak2c ker d1 d2).2,
   -(kernelPeak2c ker d1 d2).1.2 / (kernelPeak2c ker d1 d2).2)

/-- `Clean<T>::clean_2d_c`; `d1`, `d2` are the array dimensions the C code
reads from the array descriptor. -/
def clean_2d_c (sqrtFn : ℚ → ℚ) (res ker mdl : List (ℚ × ℚ)) (d1 d2 : ℕ)
    (gain : ℚ) (maxiter : ℕ) (tol : ℚ) : ExitKind × Int × St2c :=
  cleanLoop (body2c ⟨sqrtFn, ker, gain, (kernelQ2c ker d1 d2).1,
    (kernelQ2c ker d1 d2).2, tol, d1, d2⟩) maxiter (List.range maxiter)
    ⟨res, mdl, -1, -1, 0, 0, 0, 0⟩

def ctxOf2c (sqrtFn : ℚ → ℚ) (ker : List (ℚ × ℚ)) (gain tol : ℚ)
    (d1 d2 : ℕ) : Ctx2c :=
  ⟨sqrtFn, ker, gain, (kernelQ2c ker d1 d2).1, (kernelQ2c ker d1 d2).2, tol,
    d1, d2⟩

theorem clean_2d_c_eq_loop (sqrtFn : ℚ → ℚ) (res ker mdl : List (ℚ × ℚ))
    (d1 d2 : ℕ) (gain : ℚ) (maxiter : ℕ) (tol : ℚ) :
    clean_2d_c sqrtFn res ker mdl d1 d2 gain maxiter tol =
      cleanLoop (body2c (ctxOf2c sqrtFn ker gain tol d1 d2)) maxiter
        (List.range maxiter) ⟨res, mdl, -1, -1, 0, 0, 0, 0⟩ := rfl

def fires2c (c : Ctx2c) (s : St2c) : Bool :=
  decide (divergeCond2c c s) || decide (convergeCond2c c s)

/-- Budget exhaustion for `clean_2d_c`: if neither check fires during the
first `maxiter` iterations, the call returns exactly `maxiter` and the
buffers hold the state after the final executed iteration. -/
theorem clean_2d_c_budget (sqrtFn : ℚ → ℚ) (res ker mdl : List (ℚ × ℚ))
    (d1 d2 : ℕ) (gain : ℚ) (maxiter : ℕ) (tol : ℚ) (t : St2c)
    (h : runNoFire (body2c (ctxOf2c sqrtFn ker gain tol d1 d2))
      (fires2c (ctxOf2c sqrtFn ker gain tol d1 d2)) (List.range maxiter)
      ⟨res, mdl, -1, -1, 0, 0, 0, 0⟩ = some t) :
    clean_2d_c sqrtFn res ker mdl d1 d2 gain maxiter tol =
      (.budget, (maxiter : Int), t) := by
  rw [clean_2d_c_eq_loop]
  exact cleanLoop_budget _ maxiter _ _ t
    (runNoFire_imp_runCont _ _ _ _ t h)

/-- The complex normalisation constant of `clean_2d_c` equals the complex
conjugate of a maximal-modulus kernel element divided by its squared
modulus. -/
theorem kernelQ2c_spec (ker : List (ℚ × ℚ)) (d1 d2 : ℕ)
    (h : ∃ n1 n2, n1 < d1 ∧ n2 < d2 ∧ ker.getD (n1 * d2 + n2) (0, 0) ≠ (0, 0)) :
    ∃ n1 n2 pr pi, n1 < d1 ∧ n2 < d2 ∧
      ker.getD (n1 * d2 + n2) (0, 0) = (pr, pi) ∧ (pr, pi) ≠ (0, 0) ∧
      kernelQ2c ker d1 d2 =
        (pr / (pr * pr + pi * pi), -pi / (pr * pr + pi * pi)) ∧
      ∀ m1 m2, m1 < d1 → m2 < d2 →
        (ker.getD (m1 * d2 + m2) (0, 0)).1 * (ker.getD (m1 * d2 + m2) (0, 0)).1 +
          (ker.getD (m1 * d2 + m2) (0, 0)).2 * (ker.getD (m1 * d2 + m2) (0, 0)).2 ≤
          pr * pr + pi * pi := by
  obtain ⟨n1, n2, hn1, hn2, hker0⟩ := h
  obtain ⟨h1, h2, h3, h4⟩ :=
    peakFold_spec (fun p : ℕ × ℕ => ker.getD (p.1 * d2 + p.2) (0, 0))
      (fun v => v.1 * v.1 + v.2 * v.2) (pairRange d1 d2) ((0, 0), 0)
      (by norm_num)
  set r := peakFold (fun p : ℕ × ℕ => ker.getD (p.1 * d2 + p.2) (0, 0))
    (fun v => v.1 * v.1 + v.2 * v.2) (pairRange d1 d2) ((0, 0), 0) with hr
  have hmpos : ∀ v : ℚ × ℚ, v ≠ (0, 0) → 0 < v.1 * v.1 + v.2 * v.2 := by
    intro v hv
    rcases eq_or_ne v.1 0 with hv1 | hv1
    · have hv2 : v.2 ≠ 0 := by
        intro hz
        exact hv (Prod.ext hv1 hz)
      have := mul_self_pos.mpr hv2
      nlinarith [mul_self_nonneg v.1]
    · have := mul_self_pos.mpr hv1
      nlinarith [mul_self_nonneg v.2]
  have hpos : 0 < r.2 := by
    have hb := h3 (n1, n2) ((mem_pairRange d1 d2 n1 n2).mpr ⟨hn1, hn2⟩)
    have := hmpos _ hker0
    simp only at hb
    linarith
  have hmem : ∃ p ∈ pairRange d1 d2, r.1 = ker.getD (p.1 * d2 + p.2) (0, 0) := by
    rcases h4 with h4 | h4
    · rw [h4] at hpos
      norm_num at hpos
    · exact h4
  obtain ⟨p, hp, hrp⟩ := hmem
  obtain ⟨hp1, hp2⟩ := (mem_pairRange d1 d2 p.1 p.2).mp
    (by rwa [← Prod.mk.eta (p := p)] at hp)
  have hne : r.1 ≠ (0, 0) := by
    intro hz
    rw [h1, hz] at hpos
    norm_num at hpos
  refine ⟨p.1, p.2, r.1.1, r.1.2, hp1, hp2, by rw [← hrp], ?_, ?_, ?_⟩
  · rwa [Prod.mk.eta]
  · have hq : kernelQ2c ker d1 d2 = (r.1.1 / r.2, -r.1.2 / r.2) := rfl
    rw [hq, h1]
  · intro m1 m2 hm1 hm2
    have := h3 (m1, m2) ((mem_pairRange d1 d2 m1 m2).mpr ⟨hm1, hm2⟩)
    simp only at this
    rw [← h1]
    exact this

/-! ## The boundary wrapper `clean` (deconv.cpp lines 359-430)

The wrapper validates array shapes and dtypes, then dispatches to one of
the eight template instantiations.  The embedding records which core
routine (if any) gets invoked; the numeric work itself is the four loop
embeddings above.  The C local `rank` starts at 0 and is set only inside
the `RANK(res) == 1` / `RANK(res) == 2` branches; there is no `else`
branch, so a residual of any other rank reaches the dispatch with
`rank == 0`. -/

inductive DType where
  | f32
  | f64
  | f80
  | c64
  | c128
  | c160
  | other
deriving DecidableEq

structure ArrDesc where
  nd : ℕ
  dims : List ℕ
  ty : DType
deriving DecidableEq

inductive CoreRoutine where
  | r1d
  | r2d
  | c1d
  | c2d
deriving DecidableEq

def DIM (a : ArrDesc) (i : ℕ) : ℕ := a.dims.getD i 0

def RANK (a : ArrDesc) : ℕ := a.nd

def TYPE (a : ArrDesc) : DType := a.ty

/-- The type-match check and dtype dispatch (lines 382-427): the `rank == 1`
test selects the 1-D routine, anything else — including the untouched
`rank == 0` — selects the 2-D routine. -/
def cleanDispatch (res ker mdl : ArrDesc) (rank : ℕ) :
    Option (DType × CoreRoutine) :=
  if TYPE res ≠ TYPE ker ∨ TYPE res ≠ TYPE mdl then none
  else
    match TYPE res with
    | .f32 => some (.f32, if rank = 1 then .r1d else .r2d)
    | .f64 => some (.f64, if rank = 1 then .r1d else .r2d)
    | .f80 => some (.f80, if rank = 1 then .r1d else .r2d)
    | .c64 => some (.c64, if rank = 1 then .c1d else .c2d)
    | .c128 => some (.c128, if rank = 1 then .c1d else .c2d)
    | .c160 => some (.c160, if rank = 1 then .c1d else .c2d)
    | .other => none

/-- The wrapper `clean` (lines 359-430): `none` is a validation failure
(the C code raises ValueError and never calls a core routine), `some`
names the dispatched core routine. -/
def clean (res ker mdl : ArrDesc) : Option (DType × CoreRoutine) :=
  if RANK res = 1 then
    if RANK ker ≠ 1 then none
    else if RANK mdl ≠ 1 then none
    else if DIM ker 0 ≠ DIM res 0 then none
    else if DIM mdl 0 ≠ DIM res 0 then none
    else cleanDispatch res ker mdl 1
  else if RANK res = 2 then
    if RANK ker ≠ 2 then none
    else if RANK mdl ≠ 2 then none
    else if DIM ker 0 ≠ DIM res 0 then none
    else if DIM mdl 0 ≠ DIM res 0 then none
    else if DIM ker 1 ≠ DIM res 1 then none
    else if DIM mdl 1 ≠ DIM res 1 then none
    else cleanDispatch res ker mdl 2
  else cleanDispatch res ker mdl 0

theorem cleanDispatch_none_of_type_mismatch (res ker mdl : ArrDesc)
    (rank : ℕ) (h : TYPE res ≠ TYPE ker ∨ TYPE res ≠ TYPE mdl) :
    cleanDispatch res ker mdl rank = none := by
  unfold cleanDispatch
  rw [if_pos h]

theorem cleanDispatch_none_of_other (res ker mdl : ArrDesc) (rank : ℕ)
    (h : TYPE res = .other) : cleanDispatch res ker mdl rank = none := by
  unfold cleanDispatch
  by_cases hm : TYPE res ≠ TYPE ker ∨ TYPE res ≠ TYPE mdl
  · rw [if_pos hm]
  · rw [if_neg hm, h]

/-- Rank-1 validation: any rank or extent mismatch against a rank-1
residual is rejected before dispatch. -/
theorem clean_none_of_rank1_mismatch (res ker mdl : ArrDesc)
    (h1 : RANK res = 1)
    (h : RANK ker ≠ 1 ∨ RANK mdl ≠ 1 ∨ DIM ker 0 ≠ DIM res 0 ∨
      DIM mdl 0 ≠ DIM res 0) :
    clean res ker mdl = none := by
  unfold clean
  rw [if_pos h1]
  split_ifs with hk hm hd1 hd2
  · rfl
  · rfl
  · rfl
  · rfl
  · exfalso
    rcases h with h | h | h | h <;> contradiction

/-- Rank-2 validation: any rank or extent mismatch against a rank-2
residual is rejected before dispatch. -/
theorem clean_none_of_rank2_mismatch (res ker mdl : ArrDesc)
    (h2 : RANK res = 2)
    (h : RANK ker ≠ 2 ∨ RANK mdl ≠ 2 ∨ DIM ker 0 ≠ DIM res 0 ∨
      DIM mdl 0 ≠ DIM res 0 ∨ DIM ker 1 ≠ DIM res 1 ∨
      DIM mdl 1 ≠ DIM res 1) :
    clean res ker mdl = none := by
  unfold clean
  have h1 : ¬(RANK res = 1) := by rw [h2]; omega
  rw [if_neg h1, if_pos h2]
  split_ifs with hk hm hd1 hd2 hd3 hd4
  · rfl
  · rfl
  · rfl
  · rfl
  · rfl
  · rfl
  · exfalso
    rcases h with h | h | h | h | h | h <;> contradiction

/-- Element-kind mismatch among the three arrays is always rejected. -/
theorem clean_none_of_type_mismatch (res ker mdl : ArrDesc)
    (h : TYPE res ≠ TYPE ker ∨ TYPE res ≠ TYPE mdl) :
    clean res ker mdl = none := by
  unfold clean
  split_ifs <;>
    first
      | rfl
      | exact cleanDispatch_none_of_type_mismatch res ker mdl _ h

/-- An unsupported element kind is always rejected. -/
theorem clean_none_of_other (res ker mdl : ArrDesc)
    (h : TYPE res = .other) : clean res ker mdl = none := by
  unfold clean
  split_ifs <;>
    first
      | rfl
      | exact cleanDispatch_none_of_other res ker mdl _ h

/-- The missing-`else` hole: a residual whose rank is neither 1 nor 2, with
matching supported dtypes, is NOT rejected — the local `rank` stays 0 and a
2-D core routine is dispatched. -/
theorem clean_rank_hole (res ker mdl : ArrDesc) (hr1 : RANK res ≠ 1)
    (hr2 : RANK res ≠ 2) (htk : TYPE res = TYPE ker)
    (htm : TYPE res = TYPE mdl) (hto : TYPE res ≠ .other) :
    clean res ker mdl = some (TYPE res, .r2d) ∨
      clean res ker mdl = some (TYPE res, .c2d) := by
  unfold clean
  rw [if_neg hr1, if_neg hr2]
  unfold cleanDispatch
  rw [if_neg (by push_neg; exact ⟨htk, htm⟩)]
  rcases hres : TYPE res with _ | _ | _ | _ | _ | _ | _
  · exact Or.inl (by norm_num)
  · exact Or.inl (by norm_num)
  · exact Or.inl (by norm_num)
  · exact Or.inr (by norm_num)
  · exact Or.inr (by norm_num)
  · exact Or.inr (by norm_num)
  · exact absurd hres hto

/-! ## The claims -/

set_option maxRecDepth 1000000

/-- Claim C1: the claim states that on divergence (`nscore > score` with a
committed `score > 0`) every routine undoes the step and immediately
returns `-i`.  `clean_2d_c` does not: its `return -i` is dead code after
`return i` in the convergence branch, so the divergence branch rolls back
and falls through.  Witnessed on the 2-D complex input
res = [[4+4i, 3+3i]], ker = [[1, -1]], mdl = [[0, 0]], gain = 1,
maxiter = 2, tol = 1/1000 (all intermediate RMS values are exact):
iteration 1 satisfies the divergence condition, yet the call returns the
budget code 2 — not -1 — with the buffers rolled back. -/
theorem claim_C1_diverged_step_not_returned :
    runCont (body2c (ctxOf2c ratSqrt [(1, 0), (-1, 0)] 1 (1 / 1000) 1 2))
      (List.range 1) ⟨[(4, 4), (3, 3)], [(0, 0), (0, 0)], -1, -1, 0, 0, 0, 0⟩ =
      some ⟨[(4, 4), (3, 3)], [(0, 0), (0, 0)], 5, 5, 4, 4, 0, 0⟩ ∧
    divergeCond2c (ctxOf2c ratSqrt [(1, 0), (-1, 0)] 1 (1 / 1000) 1 2)
      ⟨[(4, 4), (3, 3)], [(0, 0), (0, 0)], 5, 5, 4, 4, 0, 0⟩ ∧
    clean_2d_c ratSqrt [(4, 4), (3, 3)] [(1, 0), (-1, 0)] [(0, 0), (0, 0)]
      1 2 1 2 (1 / 1000) =
      (.budget, 2, ⟨[(4, 4), (3, 3)], [(0, 0), (0, 0)], 7, 5, 7, 7, 0, 1⟩) ∧
    (clean_2d_c ratSqrt [(4, 4), (3, 3)] [(1, 0), (-1, 0)] [(0, 0), (0, 0)]
      1 2 1 2 (1 / 1000)).2.1 ≠ -1 := by
  with_unfolding_all decide

/-- Claim C2: whenever `clean` returns a negative value `-k` (divergence
detected at iteration `k`), the model and residual buffers at the moment of
return are exactly equal, element for element, to their values at the start
of iteration `k` (1-D real and 2-D real routines). -/
theorem claim_C2_divergence_rollback :
    (∀ (sqrtFn : ℚ → ℚ) (res ker mdl : List ℚ) (gain : ℚ) (maxiter : ℕ)
      (tol : ℚ) (r : Int) (t : St1r),
      clean_1d_r sqrtFn res ker mdl gain maxiter tol = (.diverged, r, t) →
      ∃ k, k < maxiter ∧ ∃ sk,
        runCont (body1r (ctxOf1r sqrtFn res ker gain tol)) (List.range k)
          ⟨res, mdl, -1, -1, 0, 0⟩ = some sk ∧
        divergeCond1r (ctxOf1r sqrtFn res ker gain tol) sk ∧
        r = -(k : Int) ∧ t.res = sk.res ∧ t.mdl = sk.mdl) ∧
    (∀ (sqrtFn : ℚ → ℚ) (res ker mdl : List ℚ) (d1 d2 : ℕ) (gain : ℚ)
      (maxiter : ℕ) (tol : ℚ) (r : Int) (t : St2r),
      clean_2d_r sqrtFn res ker mdl d1 d2 gain maxiter tol =
        (.diverged, r, t) →
      ∃ k, k < maxiter ∧ ∃ sk,
        runCont (body2r (ctxOf2r sqrtFn ker gain tol d1 d2)) (List.range k)
          ⟨res, mdl, -1, -1, 0, 0, 0⟩ = some sk ∧
        divergeCond2r (ctxOf2r sqrtFn ker gain tol d1 d2) sk ∧
        r = -(k : Int) ∧ t.res = sk.res ∧ t.mdl = sk.mdl) := by
  constructor
  · intro sqrtFn res ker mdl gain maxiter tol r t h
    obtain ⟨k, hk, sk, h1, h2, h3, h4, h5⟩ :=
      clean_1d_r_diverge_rollback sqrtFn res ker mdl gain maxiter tol r t h
    exact ⟨k, hk, sk, h1, h2, h3, h4, h5⟩
  · intro sqrtFn res ker mdl d1 d2 gain maxiter tol r t h
    obtain ⟨k, hk, sk, h1, h2, h3, h4, h5⟩ :=
      clean_2d_r_diverge_rollback sqrtFn res ker mdl d1 d2 gain maxiter tol
        r t h
    exact ⟨k, hk, sk, h1, h2, h3, h4, h5⟩

/-- Witness for claim C2: concrete diverging runs.  1-D real:
res = [4, 3, 0, 0], ker = [1, -1, 0, 0], gain = 1 diverges at iteration 1
(RMS 5/2 then 7/2) and returns -1 with both buffers restored; 2-D real:
the same data as a 2 × 2 array. -/
theorem claim_C2_divergence_rollback_witness :
    (clean_1d_r ratSqrt [4, 3, 0, 0] [1, -1, 0, 0] [0, 0, 0, 0] 1 2
        (1 / 1000) =
      (.diverged, -1, ⟨[4, 3, 0, 0], [0, 0, 0, 0], 5 / 2, 5 / 2, 7, 0⟩) ∧
      ∃ k, k < 2 ∧ ∃ sk,
        runCont (body1r (ctxOf1r ratSqrt [4, 3, 0, 0] [1, -1, 0, 0] 1
            (1 / 1000))) (List.range k)
          ⟨[4, 3, 0, 0], [0, 0, 0, 0], -1, -1, 0, 0⟩ = some sk ∧
        divergeCond1r (ctxOf1r ratSqrt [4, 3, 0, 0] [1, -1, 0, 0] 1
          (1 / 1000)) sk ∧
        (-1 : Int) = -(k : Int) ∧
        (⟨[4, 3, 0, 0], [0, 0, 0, 0], 5 / 2, 5 / 2, 7, 0⟩ : St1r).res =
          sk.res ∧
        (⟨[4, 3, 0, 0], [0, 0, 0, 0], 5 / 2, 5 / 2, 7, 0⟩ : St1r).mdl =
          sk.mdl) ∧
    (clean_2d_r ratSqrt [4, 3, 0, 0] [1, -1, 0, 0] [0, 0, 0, 0] 2 2 1 2
        (1 / 1000) =
      (.diverged, -1,
        ⟨[4, 3, 0, 0], [0, 0, 0, 0], 5 / 2, 5 / 2, 7, 0, 0⟩) ∧
      ∃ k, k < 2 ∧ ∃ sk,
        runCont (body2r (ctxOf2r ratSqrt [1, -1, 0, 0] 1 (1 / 1000) 2 2))
          (List.range k) ⟨[4, 3, 0, 0], [0, 0, 0, 0], -1, -1, 0, 0, 0⟩ =
          some sk ∧
        divergeCond2r (ctxOf2r ratSqrt [1, -1, 0, 0] 1 (1 / 1000) 2 2) sk ∧
        (-1 : Int) = -(k : Int) ∧
        (⟨[4, 3, 0, 0], [0, 0, 0, 0], 5 / 2, 5 / 2, 7, 0, 0⟩ : St2r).res =
          sk.res ∧
        (⟨[4, 3, 0, 0], [0, 0, 0, 0], 5 / 2, 5 / 2, 7, 0, 0⟩ : St2r).mdl =
          sk.mdl) :=
  ⟨⟨by with_unfolding_all decide,
    claim_C2_divergence_rollback.1 ratSqrt [4, 3, 0, 0] [1, -1, 0, 0]
      [0, 0, 0, 0] 1 2 (1 / 1000) (-1)
      ⟨[4, 3, 0, 0], [0, 0, 0, 0], 5 / 2, 5 / 2, 7, 0⟩
      (by with_unfolding_all decide)⟩,
   ⟨by with_unfolding_all decide,
    claim_C2_divergence_rollback.2 ratSqrt [4, 3, 0, 0] [1, -1, 0, 0]
      [0, 0, 0, 0] 2 2 1 2 (1 / 1000) (-1)
      ⟨[4, 3, 0, 0], [0, 0, 0, 0], 5 / 2, 5 / 2, 7, 0, 0⟩
      (by with_unfolding_all decide)⟩⟩

/-- Concrete instance of the 1-D convergence law: with res = [2],
ker = [1], gain = 1/2, maxiter = 10, tol = 1/1000 (and `sqrtFn = id`, so
scores are squared RMS values — the control-flow statement holds for any
sqrt), the run converges at iteration 6, keeping that iteration's
updates. -/
theorem clean_1d_r_convergence_law_witness :
    (clean_1d_r id [2] [1] [0] (1 / 2) 10 (1 / 1000) =
      (.converged, 6, ⟨[1 / 32], [63 / 32], 1 / 256, 4, 1 / 32, 0⟩)) ∧
    (∃ k, k < 10 ∧ ∃ sk,
      runCont (body1r (ctxOf1r id [2] [1] (1 / 2) (1 / 1000)))
        (List.range k) ⟨[2], [0], -1, -1, 0, 0⟩ = some sk ∧
      (6 : Int) = (k : Int) ∧
      0 < sk.score ∧
      (sk.score - iterNscore1r (ctxOf1r id [2] [1] (1 / 2) (1 / 1000)) sk) /
        iterFirst1r (ctxOf1r id [2] [1] (1 / 2) (1 / 1000)) sk < 1 / 1000 ∧
      (⟨[1 / 32], [63 / 32], 1 / 256, 4, 1 / 32, 0⟩ : St1r).res =
        (iterScan1r (ctxOf1r id [2] [1] (1 / 2) (1 / 1000)) sk).res ∧
      (⟨[1 / 32], [63 / 32], 1 / 256, 4, 1 / 32, 0⟩ : St1r).mdl =
        mdlAdd1r (ctxOf1r id [2] [1] (1 / 2) (1 / 1000)) sk ∧
      (∀ j, j < k → ∀ sj,
        runCont (body1r (ctxOf1r id [2] [1] (1 / 2) (1 / 1000)))
          (List.range j) ⟨[2], [0], -1, -1, 0, 0⟩ = some sj →
        ¬convergeCond1r (ctxOf1r id [2] [1] (1 / 2) (1 / 1000)) sj)) :=
  ⟨by with_unfolding_all decide,
   clean_1d_r_convergence_law id [2] [1] [0] (1 / 2) 10 (1 / 1000) 6
     ⟨[1 / 32], [63 / 32], 1 / 256, 4, 1 / 32, 0⟩
     (by with_unfolding_all decide)⟩

/-- Claim C3: the claim states that, for every valid input of `clean`, a
non-negative return `i` through the convergence check marks the FIRST
iteration at which a previously committed score existed and
`(score - nscore) / firstscore < tolerance`.  That holds for `clean_1d_r`
(proved above as `clean_1d_r_convergence_law`), but the claim also covers
`clean_2d_c`, where it is false: the missing `return -i` of that routine's
divergence branch (dead code at line 263) lets a run pass THROUGH a
diverged iteration — at which the inequality already holds, since
`score - nscore < 0 < tolerance` there — and return through the
convergence check at a later iteration.  Concretely (dims 1 × 15,
res = [[1, 0, …, 0]], ker = [[1, 1/3, …, 1/3]], gain = 1, tol = 1/2,
maxiter = 3, with `sqrtFn = id`; every branch decides as with a true
sqrt): at the start of iteration 1 the committed score is positive and
both the divergence condition and the convergence inequality hold, the
iteration is rolled back and falls through, and the call then returns
through the convergence check with code 2 — not 1, the first iteration at
which the inequality held. -/
theorem claim_C3_convergence_return_not_first :
    runCont (body2c (ctxOf2c id
        ((1, 0) :: List.replicate 14 ((1 : ℚ) / 3, (0 : ℚ))) 1 (1 / 2)
        1 15))
      (List.range 1)
      ⟨(1, 0) :: List.replicate 14 ((0 : ℚ), (0 : ℚ)),
        List.replicate 15 ((0 : ℚ), (0 : ℚ)), -1, -1, 0, 0, 0, 0⟩ =
      some ⟨(1, 0) :: List.replicate 14 ((0 : ℚ), (0 : ℚ)),
        List.replicate 15 ((0 : ℚ), (0 : ℚ)), 1 / 15, 1 / 15, 1, 0, 0, 0⟩ ∧
    divergeCond2c (ctxOf2c id
        ((1, 0) :: List.replicate 14 ((1 : ℚ) / 3, (0 : ℚ))) 1 (1 / 2)
        1 15)
      ⟨(1, 0) :: List.replicate 14 ((0 : ℚ), (0 : ℚ)),
        List.replicate 15 ((0 : ℚ), (0 : ℚ)), 1 / 15, 1 / 15, 1, 0, 0, 0⟩ ∧
    convergeCond2c (ctxOf2c id
        ((1, 0) :: List.replicate 14 ((1 : ℚ) / 3, (0 : ℚ))) 1 (1 / 2)
        1 15)
      ⟨(1, 0) :: List.replicate 14 ((0 : ℚ), (0 : ℚ)),
        List.replicate 15 ((0 : ℚ), (0 : ℚ)), 1 / 15, 1 / 15, 1, 0, 0, 0⟩ ∧
    (clean_2d_c id ((1, 0) :: List.replicate 14 ((0 : ℚ), (0 : ℚ)))
      ((1, 0) :: List.replicate 14 ((1 : ℚ) / 3, (0 : ℚ)))
      (List.replicate 15 ((0 : ℚ), (0 : ℚ))) 1 15 1 3 (1 / 2)).1 =
      .converged ∧
    (clean_2d_c id ((1, 0) :: List.replicate 14 ((0 : ℚ), (0 : ℚ)))
      ((1, 0) :: List.replicate 14 ((1 : ℚ) / 3, (0 : ℚ)))
      (List.replicate 15 ((0 : ℚ), (0 : ℚ))) 1 15 1 3 (1 / 2)).2.1 = 2 := by
  with_unfolding_all decide

/-- Claim C4: the claim states the committed residual RMS never increases.
In `clean_2d_c` a diverged iteration still commits `score = nscore`
(missing `return -i`), so on the C1 input the committed score sequence is
5 then 7 — strictly increasing — while the buffers were rolled back. -/
theorem claim_C4_committed_score_increases :
    runCont (body2c (ctxOf2c ratSqrt [(1, 0), (-1, 0)] 1 (1 / 1000) 1 2))
      (List.range 1) ⟨[(4, 4), (3, 3)], [(0, 0), (0, 0)], -1, -1, 0, 0, 0, 0⟩ =
      some ⟨[(4, 4), (3, 3)], [(0, 0), (0, 0)], 5, 5, 4, 4, 0, 0⟩ ∧
    runCont (body2c (ctxOf2c ratSqrt [(1, 0), (-1, 0)] 1 (1 / 1000) 1 2))
      (List.range 2) ⟨[(4, 4), (3, 3)], [(0, 0), (0, 0)], -1, -1, 0, 0, 0, 0⟩ =
      some ⟨[(4, 4), (3, 3)], [(0, 0), (0, 0)], 7, 5, 7, 7, 0, 1⟩ ∧
    ((5 : ℚ) < 7) := by
  with_unfolding_all decide

/-- Claim C5 counterexample: a residual of rank 3 (neither 1 nor 2) with
matching supported dtypes is NOT rejected by the wrapper — the untouched
`rank = 0` falls into the `else` of `rank == 1` at dispatch and the 2-D
real core is invoked. -/
theorem claim_C5_rank3_not_rejected :
    clean ⟨3, [2, 2, 2], .f32⟩ ⟨1, [4], .f32⟩ ⟨1, [4], .f32⟩ =
      some (.f32, .r2d) ∧
    clean ⟨3, [2, 2, 2], .f32⟩ ⟨1, [4], .f32⟩ ⟨1, [4], .f32⟩ ≠ none := by
  refine ⟨rfl, ?_⟩
  intro h
  rw [show clean ⟨3, [2, 2, 2], .f32⟩ ⟨1, [4], .f32⟩ ⟨1, [4], .f32⟩ =
    some (.f32, .r2d) from rfl] at h
  exact Option.noConfusion h

/-- Claim C5 (amended): the wrapper rejects, without invoking any core
routine, every rank or extent mismatch against a rank-1 or rank-2
residual, every element-kind mismatch, and every unsupported element kind;
but a residual whose rank is neither 1 nor 2 is NOT rejected — with
matching supported dtypes the 2-D core is invoked on it. -/
theorem claim_C5_boundary_validation :
    (∀ res ker mdl : ArrDesc, RANK res = 1 →
      (RANK ker ≠ 1 ∨ RANK mdl ≠ 1 ∨ DIM ker 0 ≠ DIM res 0 ∨
        DIM mdl 0 ≠ DIM res 0) →
      clean res ker mdl = none) ∧
    (∀ res ker mdl : ArrDesc, RANK res = 2 →
      (RANK ker ≠ 2 ∨ RANK mdl ≠ 2 ∨ DIM ker 0 ≠ DIM res 0 ∨
        DIM mdl 0 ≠ DIM res 0 ∨ DIM ker 1 ≠ DIM res 1 ∨
        DIM mdl 1 ≠ DIM res 1) →
      clean res ker mdl = none) ∧
    (∀ res ker mdl : ArrDesc, TYPE res ≠ TYPE ker ∨ TYPE res ≠ TYPE mdl →
      clean res ker mdl = none) ∧
    (∀ res ker mdl : ArrDesc, TYPE res = .other →
      clean res ker mdl = none) ∧
    (∀ res ker mdl : ArrDesc, RANK res ≠ 1 → RANK res ≠ 2 →
      TYPE res = TYPE ker → TYPE res = TYPE mdl → TYPE res ≠ .other →
      clean res ker mdl = some (TYPE res, .r2d) ∨
        clean res ker mdl = some (TYPE res, .c2d)) :=
  ⟨clean_none_of_rank1_mismatch, clean_none_of_rank2_mismatch,
   clean_none_of_type_mismatch, clean_none_of_other, clean_rank_hole⟩

/-- Witness for claim C5: the spec's shape-mismatch scenario (rank-2
residual with a rank-1 kernel) is rejected; so are a rank-1 extent
mismatch, a dtype mismatch, and an unsupported dtype; and the rank-3 hole
dispatches the 2-D real core. -/
theorem claim_C5_boundary_validation_witness :
    clean ⟨1, [4], .f64⟩ ⟨1, [5], .f64⟩ ⟨1, [4], .f64⟩ = none ∧
    clean ⟨2, [2, 2], .f32⟩ ⟨1, [2], .f32⟩ ⟨2, [2, 2], .f32⟩ = none ∧
    clean ⟨1, [4], .f32⟩ ⟨1, [4], .f64⟩ ⟨1, [4], .f32⟩ = none ∧
    clean ⟨1, [4], .other⟩ ⟨1, [4], .other⟩ ⟨1, [4], .other⟩ = none ∧
    (clean ⟨3, [2, 2, 2], .c128⟩ ⟨1, [4], .c128⟩ ⟨1, [4], .c128⟩ =
        some (.c128, .r2d) ∨
      clean ⟨3, [2, 2, 2], .c128⟩ ⟨1, [4], .c128⟩ ⟨1, [4], .c128⟩ =
        some (.c128, .c2d)) :=
  ⟨claim_C5_boundary_validation.1 ⟨1, [4], .f64⟩ ⟨1, [5], .f64⟩
      ⟨1, [4], .f64⟩ (by decide) (by decide),
   claim_C5_boundary_validation.2.1 ⟨2, [2, 2], .f32⟩ ⟨1, [2], .f32⟩
      ⟨2, [2, 2], .f32⟩ (by decide) (by decide),
   claim_C5_boundary_validation.2.2.1 ⟨1, [4], .f32⟩ ⟨1, [4], .f64⟩
      ⟨1, [4], .f32⟩ (by decide),
   claim_C5_boundary_validation.2.2.2.1 ⟨1, [4], .other⟩ ⟨1, [4], .other⟩
      ⟨1, [4], .other⟩ (by decide),
   claim_C5_boundary_validation.2.2.2.2 ⟨3, [2, 2, 2], .c128⟩
      ⟨1, [4], .c128⟩ ⟨1, [4], .c128⟩ (by decide) (by decide) (by decide)
      (by decide) (by decide)⟩

/-- Claim C6: the normalisation constant `q` comes from the kernel element
of maximal squared magnitude (real) / squared modulus (complex), found in
the single kernel scan: for real kernels `q = 1 / peak` using the raw,
possibly negative peak (so `q`'s sign follows the peak's sign), and for
complex kernels `q = conjugate(peak) / |peak|²`. -/
theorem claim_C6_kernel_normalization :
    (∀ (ker : List ℚ) (dim : ℕ), (∃ n, n < dim ∧ ker.getD n 0 ≠ 0) →
      ∃ n, n < dim ∧ ker.getD n 0 ≠ 0 ∧
        kernelQ1r ker dim = 1 / ker.getD n 0 ∧
        (∀ m, m < dim → ker.getD m 0 * ker.getD m 0 ≤
          ker.getD n 0 * ker.getD n 0) ∧
        (0 < ker.getD n 0 → 0 < kernelQ1r ker dim) ∧
        (ker.getD n 0 < 0 → kernelQ1r ker dim < 0)) ∧
    (∀ (ker : List (ℚ × ℚ)) (d1 d2 : ℕ),
      (∃ n1 n2, n1 < d1 ∧ n2 < d2 ∧
        ker.getD (n1 * d2 + n2) (0, 0) ≠ (0, 0)) →
      ∃ n1 n2 pr pi, n1 < d1 ∧ n2 < d2 ∧
        ker.getD (n1 * d2 + n2) (0, 0) = (pr, pi) ∧ (pr, pi) ≠ (0, 0) ∧
        kernelQ2c ker d1 d2 =
          (pr / (pr * pr + pi * pi), -pi / (pr * pr + pi * pi)) ∧
        ∀ m1 m2, m1 < d1 → m2 < d2 →
          (ker.getD (m1 * d2 + m2) (0, 0)).1 *
              (ker.getD (m1 * d2 + m2) (0, 0)).1 +
            (ker.getD (m1 * d2 + m2) (0, 0)).2 *
              (ker.getD (m1 * d2 + m2) (0, 0)).2 ≤
            pr * pr + pi * pi) :=
  ⟨kernelQ1r_spec, kernelQ2c_spec⟩

/-- Witness for claim C6: a real kernel with a negative peak and a complex
kernel with peak 3 + 4i. -/
theorem claim_C6_kernel_normalization_witness :
    (∃ n, n < 2 ∧ ([-2, 1] : List ℚ).getD n 0 ≠ 0) ∧
    (∃ n, n < 2 ∧ ([-2, 1] : List ℚ).getD n 0 ≠ 0 ∧
      kernelQ1r [-2, 1] 2 = 1 / ([-2, 1] : List ℚ).getD n 0 ∧
      (∀ m, m < 2 → ([-2, 1] : List ℚ).getD m 0 *
          ([-2, 1] : List ℚ).getD m 0 ≤
        ([-2, 1] : List ℚ).getD n 0 * ([-2, 1] : List ℚ).getD n 0) ∧
      (0 < ([-2, 1] : List ℚ).getD n 0 → 0 < kernelQ1r [-2, 1] 2) ∧
      (([-2, 1] : List ℚ).getD n 0 < 0 → kernelQ1r [-2, 1] 2 < 0)) ∧
    (∃ n1 n2 pr pi, n1 < 1 ∧ n2 < 2 ∧
      ([(0, 0), (3, 4)] : List (ℚ × ℚ)).getD (n1 * 2 + n2) (0, 0) =
        (pr, pi) ∧
      (pr, pi) ≠ (0, 0) ∧
      kernelQ2c [(0, 0), (3, 4)] 1 2 =
        (pr / (pr * pr + pi * pi), -pi / (pr * pr + pi * pi)) ∧
      ∀ m1 m2, m1 < 1 → m2 < 2 →
        (([(0, 0), (3, 4)] : List (ℚ × ℚ)).getD (m1 * 2 + m2) (0, 0)).1 *
            (([(0, 0), (3, 4)] : List (ℚ × ℚ)).getD (m1 * 2 + m2) (0, 0)).1 +
          (([(0, 0), (3, 4)] : List (ℚ × ℚ)).getD (m1 * 2 + m2) (0, 0)).2 *
            (([(0, 0), (3, 4)] : List (ℚ × ℚ)).getD (m1 * 2 + m2) (0, 0)).2 ≤
          pr * pr + pi * pi) := by
  have h1 : ∃ n, n < 2 ∧ ([-2, 1] : List ℚ).getD n 0 ≠ 0 :=
    ⟨0, by norm_num, by with_unfolding_all decide⟩
  have h2 : ∃ n1 n2, n1 < 1 ∧ n2 < 2 ∧
      ([(0, 0), (3, 4)] : List (ℚ × ℚ)).getD (n1 * 2 + n2) (0, 0) ≠
        (0, 0) :=
    ⟨0, 1, by norm_num, by norm_num, by with_unfolding_all decide⟩
  exact ⟨h1, claim_C6_kernel_normalization.1 [-2, 1] 2 h1,
    claim_C6_kernel_normalization.2 [(0, 0), (3, 4)] 1 2 h2⟩

/-- Claim C7: in every iteration, for every offset `n` (1-D) or offset pair
`(n1, n2)` (2-D) over the kernel's full domain, `ker[n] * step` is
subtracted from the residual at the wrapped index `(n + argmax) mod dim`
per axis, and every write lands at an in-range (wrapped) index, the
residual keeping its length. -/
theorem claim_C7_wrapped_subtraction :
    (∀ (c : Ctx1r) (s : St1r), s.res.length = c.dim → ∀ n, n < c.dim →
      (n + s.argmax) % c.dim < c.dim ∧
      (iterScan1r c s).res.length = c.dim ∧
      (iterScan1r c s).res.getD ((n + s.argmax) % c.dim) 0 =
        s.res.getD ((n + s.argmax) % c.dim) 0 -
          c.ker.getD n 0 * stepOf1r c s) ∧
    (∀ (c : Ctx2r) (s : St2r), s.res.length = c.dim1 * c.dim2 →
      ∀ n1 n2, n1 < c.dim1 → n2 < c.dim2 →
      wrapIdx2 c s.argmax1 s.argmax2 (n1, n2) < c.dim1 * c.dim2 ∧
      (iterScan2r c s).res.length = c.dim1 * c.dim2 ∧
      (iterScan2r c s).res.getD (wrapIdx2 c s.argmax1 s.argmax2 (n1, n2))
          0 =
        s.res.getD (wrapIdx2 c s.argmax1 s.argmax2 (n1, n2)) 0 -
          c.ker.getD (n1 * c.dim2 + n2) 0 * stepOf2r c s) :=
  ⟨fun c s h n hn => iterScan1r_pointwise c s h n hn,
   fun c s h n1 n2 h1 h2 => iterScan2r_pointwise c s h n1 n2 h1 h2⟩

/-- Witness for claim C7: concrete 1-D and 2-D iteration states with a
nonzero `argmax`, so the wrap is visible. -/
theorem claim_C7_wrapped_subtraction_witness :
    ((0 + 1) % 2 < 2 ∧
      (iterScan1r ⟨id, [1, 2], 1, 1, 1 / 1000, 2⟩
        ⟨[5, 6], [0, 0], -1, -1, 3, 1⟩).res.length = 2 ∧
      (iterScan1r ⟨id, [1, 2], 1, 1, 1 / 1000, 2⟩
        ⟨[5, 6], [0, 0], -1, -1, 3, 1⟩).res.getD ((0 + 1) % 2) 0 =
        ([5, 6] : List ℚ).getD ((0 + 1) % 2) 0 -
          ([1, 2] : List ℚ).getD 0 0 *
            stepOf1r ⟨id, [1, 2], 1, 1, 1 / 1000, 2⟩
              ⟨[5, 6], [0, 0], -1, -1, 3, 1⟩) ∧
    (wrapIdx2 ⟨id, [1, 0, 0, 0], 1, 1, 1 / 1000, 2, 2⟩ 1 1 (1, 0) < 2 * 2 ∧
      (iterScan2r ⟨id, [1, 0, 0, 0], 1, 1, 1 / 1000, 2, 2⟩
        ⟨[1, 2, 3, 4], [0, 0, 0, 0], -1, -1, 2, 1, 1⟩).res.length = 2 * 2 ∧
      (iterScan2r ⟨id, [1, 0, 0, 0], 1, 1, 1 / 1000, 2, 2⟩
        ⟨[1, 2, 3, 4], [0, 0, 0, 0], -1, -1, 2, 1, 1⟩).res.getD
          (wrapIdx2 ⟨id, [1, 0, 0, 0], 1, 1, 1 / 1000, 2, 2⟩ 1 1 (1, 0)) 0 =
        ([1, 2, 3, 4] : List ℚ).getD
            (wrapIdx2 ⟨id, [1, 0, 0, 0], 1, 1, 1 / 1000, 2, 2⟩ 1 1 (1, 0))
            0 -
          ([1, 0, 0, 0] : List ℚ).getD (1 * 2 + 0) 0 *
            stepOf2r ⟨id, [1, 0, 0, 0], 1, 1, 1 / 1000, 2, 2⟩
              ⟨[1, 2, 3, 4], [0, 0, 0, 0], -1, -1, 2, 1, 1⟩) :=
  ⟨claim_C7_wrapped_subtraction.1 ⟨id, [1, 2], 1, 1, 1 / 1000, 2⟩
      ⟨[5, 6], [0, 0], -1, -1, 3, 1⟩ (by decide) 0 (by decide),
   claim_C7_wrapped_subtraction.2 ⟨id, [1, 0, 0, 0], 1, 1, 1 / 1000, 2, 2⟩
      ⟨[1, 2, 3, 4], [0, 0, 0, 0], -1, -1, 2, 1, 1⟩ (by decide) 1 0
      (by decide) (by decide)⟩

/-- Claim C8: if neither the divergence check nor the convergence check
fires during the first `maxiter` iterations, the call returns exactly
`maxiter` and the buffers hold the state produced by the final executed
iteration (1-D real and 2-D complex routines). -/
theorem claim_C8_budget_return :
    (∀ (sqrtFn : ℚ → ℚ) (res ker mdl : List ℚ) (gain : ℚ) (maxiter : ℕ)
      (tol : ℚ) (t : St1r),
      runNoFire (body1r (ctxOf1r sqrtFn res ker gain tol))
        (fires1r (ctxOf1r sqrtFn res ker gain tol)) (List.range maxiter)
        ⟨res, mdl, -1, -1, 0, 0⟩ = some t →
      clean_1d_r sqrtFn res ker mdl gain maxiter tol =
        (.budget, (maxiter : Int), t)) ∧
    (∀ (sqrtFn : ℚ → ℚ) (res ker mdl : List (ℚ × ℚ)) (d1 d2 : ℕ)
      (gain : ℚ) (maxiter : ℕ) (tol : ℚ) (t : St2c),
      runNoFire (body2c (ctxOf2c sqrtFn ker gain tol d1 d2))
        (fires2c (ctxOf2c sqrtFn ker gain tol d1 d2)) (List.range maxiter)
        ⟨res, mdl, -1, -1, 0, 0, 0, 0⟩ = some t →
      clean_2d_c sqrtFn res ker mdl d1 d2 gain maxiter tol =
        (.budget, (maxiter : Int), t)) :=
  ⟨clean_1d_r_budget, clean_2d_c_budget⟩

/-- Witness for claim C8: three-iteration runs (gain 1) in which no check
ever fires — the residual is cancelled at iteration 1 and the score guard
`score > 0` is false from then on — returning exactly `maxiter = 3`. -/
theorem claim_C8_budget_return_witness :
    (runNoFire (body1r (ctxOf1r id [2] [1] 1 (1 / 1000)))
        (fires1r (ctxOf1r id [2] [1] 1 (1 / 1000))) (List.range 3)
        ⟨[2], [0], -1, -1, 0, 0⟩ = some ⟨[0], [2], 0, 4, 0, 0⟩ ∧
      clean_1d_r id [2] [1] [0] 1 3 (1 / 1000) =
        (.budget, 3, ⟨[0], [2], 0, 4, 0, 0⟩)) ∧
    (runNoFire (body2c (ctxOf2c id [(1, 0)] 1 (1 / 1000) 1 1))
        (fires2c (ctxOf2c id [(1, 0)] 1 (1 / 1000) 1 1)) (List.range 3)
        ⟨[(2, 0)], [(0, 0)], -1, -1, 0, 0, 0, 0⟩ =
        some ⟨[(0, 0)], [(2, 0)], 0, 4, 0, 0, 0, 0⟩ ∧
      clean_2d_c id [(2, 0)] [(1, 0)] [(0, 0)] 1 1 1 3 (1 / 1000) =
        (.budget, 3, ⟨[(0, 0)], [(2, 0)], 0, 4, 0, 0, 0, 0⟩)) :=
  ⟨⟨by with_unfolding_all decide,
    claim_C8_budget_return.1 id [2] [1] [0] 1 3 (1 / 1000)
      ⟨[0], [2], 0, 4, 0, 0⟩ (by with_unfolding_all decide)⟩,
   ⟨by with_unfolding_all decide,
    claim_C8_budget_return.2 id [(2, 0)] [(1, 0)] [(0, 0)] 1 1 1 3
      (1 / 1000) ⟨[(0, 0)], [(2, 0)], 0, 4, 0, 0, 0, 0⟩
      (by with_unfolding_all decide)⟩⟩

/-- Claim C9: on the 1-D real input dim = 4, ker = [1, 0, 0, 0],
res = [0, 0, 5, 0], mdl = [0, 0, 0, 0], gain = 1, maxiter = 1: because
`max` starts at 0 rather than being seeded by an initial scan, iteration
0's step is `gain * max * q = 0`, so neither buffer changes; the iteration
only records the residual peak (value 5 at index 2, RMS 5/2) in the
committed state, and the call returns 1. -/
theorem claim_C9_zero_seed_first_iteration :
    stepOf1r (ctxOf1r ratSqrt [0, 0, 5, 0] [1, 0, 0, 0] 1 (1 / 1000))
      ⟨[0, 0, 5, 0], [0, 0, 0, 0], -1, -1, 0, 0⟩ = 0 ∧
    clean_1d_r ratSqrt [0, 0, 5, 0] [1, 0, 0, 0] [0, 0, 0, 0] 1 1
      (1 / 1000) =
      (.budget, 1, ⟨[0, 0, 5, 0], [0, 0, 0, 0], 5 / 2, 5 / 2, 5, 2⟩) := by
  with_unfolding_all decide

/-- Claim C10: with `maxiter ≥ 1` the clean loop never returns 0 — both
checks are guarded by `score > 0`, which is false at iteration 0 since
`score` starts at the sentinel -1, so check returns satisfy `|i| ≥ 1` and
the budget return is `maxiter ≥ 1` (1-D real and 2-D real routines). -/
theorem claim_C10_nonzero_return :
    (∀ (sqrtFn : ℚ → ℚ) (res ker mdl : List ℚ) (gain : ℚ) (maxiter : ℕ)
      (tol : ℚ), 1 ≤ maxiter →
      (clean_1d_r sqrtFn res ker mdl gain maxiter tol).2.1 ≠ 0) ∧
    (∀ (sqrtFn : ℚ → ℚ) (res ker mdl : List ℚ) (d1 d2 : ℕ) (gain : ℚ)
      (maxiter : ℕ) (tol : ℚ), 1 ≤ maxiter →
      (clean_2d_r sqrtFn res ker mdl d1 d2 gain maxiter tol).2.1 ≠ 0) :=
  ⟨clean_1d_r_ne_zero, clean_2d_r_ne_zero⟩

/-- Witness for claim C10. -/
theorem claim_C10_nonzero_return_witness :
    (1 : ℕ) ≤ 1 ∧
    (clean_1d_r id [1] [1] [0] 1 1 1).2.1 ≠ 0 ∧
    (clean_2d_r id [1] [1] [0] 1 1 1 1 1).2.1 ≠ 0 :=
  ⟨by decide,
   claim_C10_nonzero_return.1 id [1] [1] [0] 1 1 1 (by decide),
   claim_C10_nonzero_return.2 id [1] [1] [0] 1 1 1 1 1 (by decide)⟩

end Deconv
